import Mathlib

/-!
# Verification of the pyshadoz SHADOZ parser/writer

This file gives a shallow embedding of the core of `pyshadoz/__init__.py`
(the NASA SHADOZ object model: the value inferencer `_get_value_type`, the
parser `SHADOZ.__init__`, the writer `SHADOZ.write`, and the accessors
`get_data_fields`, `get_data`, `get_data_index`), together with theorems
settling the specification claims about it.

Modelling conventions:
* Python strings are modelled as `List Char` (`PyStr`); Python's `str`
  operations (`strip`, `split`, `replace`, `rjust`, `ljust`, ...) are given
  explicit executable models restricted to ASCII text.
* Python `float` is modelled by exact decimal arithmetic over `ℚ`
  (tokens are parsed to their exact decimal value; `str`/`repr` of a float
  prints the minimal exact decimal expansion in plain notation).  IEEE-754
  rounding and scientific notation for very large/small magnitudes are not
  modelled; `pyFloatRepr` returns a non-numeric placeholder outside the
  faithful range.
* Python exceptions are modelled by the `PyErr` type; `LOGGER.warning`
  calls are modelled by an accumulated `List String` of warning messages
  (`LOGGER.debug` calls are not tracked).
* All definitions are executable (structural recursion, with explicit fuel
  where the source scans strings by pattern position).
-/

/-- Python strings, modelled as lists of characters. -/
abbrev PyStr := List Char

/-- Coerce a Lean string literal to the `PyStr` model. -/
def pstr (s : String) : PyStr := s.toList

/-- Python exception kinds that the modelled code can raise.
`invalidData` is `pyshadoz.InvalidDataError`, `dataAccess` is
`pyshadoz.DataAccessError`; the rest are the corresponding Python builtin
exception classes (`UnboundLocalError` is modelled by `nameError`, its
superclass). -/
inductive PyErr where
  | invalidData (msg : String)
  | dataAccess (msg : String)
  | valueError
  | typeError
  | keyError
  | indexError
  | nameError
  | attributeError
deriving DecidableEq

/-- Characters treated as whitespace by Python's `str.strip`/`str.split`
(ASCII fragment: space, tab, newline, carriage return, vertical tab,
form feed). -/
def pyWS (c : Char) : Bool :=
  c = ' ' || c = '\t' || c = '\n' || c = '\r' || c = Char.ofNat 11 || c = Char.ofNat 12

/-- Python `str.strip()`: remove leading and trailing whitespace. -/
def pyStrip (s : PyStr) : PyStr :=
  ((s.dropWhile pyWS).reverse.dropWhile pyWS).reverse

/-- Python `str.lower()` (ASCII). -/
def pyLower (s : PyStr) : PyStr := s.map Char.toLower

/-- Python `pat in s` (substring containment). -/
def containsSub (pat : PyStr) : PyStr → Bool
  | [] => pat.isEmpty
  | c :: rest => pat.isPrefixOf (c :: rest) || containsSub pat rest

/-- Python `s.replace(pat, repl)` (leftmost, non-overlapping, the
replacement is not rescanned), driven by explicit fuel; one unit of fuel
is spent per position examined, so fuel `s.length` always suffices. -/
def replaceSubFuel (pat repl : PyStr) : Nat → PyStr → PyStr
  | _, [] => []
  | 0, s => s
  | fuel + 1, c :: cs =>
      if pat ≠ [] ∧ pat.isPrefixOf (c :: cs) then
        repl ++ replaceSubFuel pat repl fuel ((c :: cs).drop pat.length)
      else
        c :: replaceSubFuel pat repl fuel cs

/-- Python `s.replace(pat, repl)`. -/
def replaceSub (pat repl s : PyStr) : PyStr :=
  replaceSubFuel pat repl s.length s

/-- Python `s.split(': ', 1)` when the separator occurs: returns the parts
before and after the first occurrence of `": "`; `none` when the line has
no `": "` separator (in which case Python's 2-element unpacking raises
`ValueError`). -/
def splitColonSpace : PyStr → Option (PyStr × PyStr)
  | [] => none
  | c :: rest =>
      if c = ':' ∧ rest.headD ' ' = ' ' ∧ rest ≠ [] then
        some ([], rest.tail)
      else
        (splitColonSpace rest).map (fun p => (c :: p.1, p.2))

/-- Python `s.split()` (split on runs of whitespace, dropping empty
tokens).  `acc` is the current token, reversed. -/
def splitWsGo : PyStr → PyStr → List PyStr
  | acc, [] => if acc = [] then [] else [acc.reverse]
  | acc, c :: rest =>
      if pyWS c then
        if acc = [] then splitWsGo [] rest else acc.reverse :: splitWsGo [] rest
      else splitWsGo (c :: acc) rest

/-- Python `s.split()`. -/
def splitWsTokens (s : PyStr) : List PyStr := splitWsGo [] s

/-- Python `re.split(r'\s{2,}', s)`: split on maximal runs of two or more
whitespace characters (a single whitespace character stays inside the
token).  `inSep` records that we are inside a separator run whose first
two characters have been consumed; `acc` is the current token, reversed. -/
def splitWs2Go : Bool → PyStr → PyStr → List PyStr
  | _, acc, [] => [acc.reverse]
  | true, acc, c :: rest =>
      if pyWS c then splitWs2Go true acc rest
      else splitWs2Go false [c] rest
  | false, acc, c :: rest =>
      if pyWS c then
        match rest with
        | [] => [(c :: acc).reverse]
        | d :: rest2 =>
            if pyWS d then acc.reverse :: splitWs2Go true [] rest2
            else splitWs2Go false (d :: c :: acc) rest2
      else splitWs2Go false (c :: acc) rest

/-- Python `re.split(r'\s{2,}', s)`. -/
def splitWs2 (s : PyStr) : List PyStr := splitWs2Go false [] s

/-- Python `s.rjust(w)` (pad on the left with spaces). -/
def rjust (w : Nat) (s : PyStr) : PyStr := List.replicate (w - s.length) ' ' ++ s

/-- Python `'{0: <{width}}'.format(s)`, i.e. `s.ljust(w)`. -/
def ljust (w : Nat) (s : PyStr) : PyStr := s ++ List.replicate (w - s.length) ' '

/-- Model of `re.sub('^     ', '', l)`: drop an initial run of exactly
five spaces when present. -/
def stripFiveSpaces (l : PyStr) : PyStr :=
  if (pstr "     ").isPrefixOf l then l.drop 5 else l

/-- Model of `ioobj.readlines()` composed with the implicit line
terminators: the lines of a text buffer, without their `'\n'`
terminators (a trailing newline does not produce an extra empty line,
matching Python's `readlines`). -/
def pyReadLines (s : PyStr) : List PyStr :=
  let p := s.splitOn '\n'
  if p.getLast? = some [] then p.dropLast else p

/-- Python list index normalisation for `l[i]`: negative indices count
from the end. -/
def pyListGet (l : List α) (i : Int) : Except PyErr α :=
  let j : Int := if i < 0 then (l.length : Int) + i else i
  if j < 0 then .error .indexError
  else
    match l.get? j.toNat with
    | some a => .ok a
    | none => .error .indexError

/-- `l[n]` for a natural index (`IndexError` when out of range). -/
def natGet (l : List α) (n : Nat) : Except PyErr α :=
  match l.get? n with
  | some a => .ok a
  | none => .error .indexError

/-- Clamped bound used by Python slices. -/
def pyBound (n : Nat) (i : Int) : Nat :=
  if i < 0 then ((n : Int) + i).toNat else min n i.toNat

/-- Python `l[a:b]`. -/
def pySlice (l : List α) (a b : Int) : List α :=
  (l.take (pyBound l.length b)).drop (pyBound l.length a)

/-- Python `l[a:]`. -/
def pySliceFrom (l : List α) (a : Int) : List α :=
  l.drop (pyBound l.length a)

/-- Decimal digit value of a character. -/
def digVal (c : Char) : Option Nat :=
  if '0' ≤ c ∧ c ≤ '9' then some (c.toNat - 48) else none

/-- Continue parsing a Python digit group (digits with single underscores
strictly between digits), accumulating the value.  Models the digit-group
grammar shared by `int()` and `float()`. -/
def digGroupGo (acc : Nat) : PyStr → Option Nat
  | [] => some acc
  | c :: cs =>
      if c = '_' then
        match cs with
        | [] => none
        | d :: ds =>
            match digVal d with
            | some k => digGroupGo (10 * acc + k) ds
            | none => none
      else
        match digVal c with
        | some k => digGroupGo (10 * acc + k) cs
        | none => none

/-- A full Python digit group: nonempty, starts with a digit. -/
def digGroup : PyStr → Option Nat
  | [] => none
  | c :: cs =>
      match digVal c with
      | some k => digGroupGo k cs
      | none => none

/-- Python digit group together with the number of digits (underscores not
counted), for fractional parts. -/
def digGroupCountGo (acc : Nat) (cnt : Nat) : PyStr → Option (Nat × Nat)
  | [] => some (acc, cnt)
  | c :: cs =>
      if c = '_' then
        match cs with
        | [] => none
        | d :: ds =>
            match digVal d with
            | some k => digGroupCountGo (10 * acc + k) (cnt + 1) ds
            | none => none
      else
        match digVal c with
        | some k => digGroupCountGo (10 * acc + k) (cnt + 1) cs
        | none => none

/-- Model of Python `int(s)` (ASCII): optional surrounding whitespace,
optional sign, digit group. -/
def pyIntParse (s : PyStr) : Option Int :=
  match pyStrip s with
  | '+' :: rest => (digGroup rest).map Int.ofNat
  | '-' :: rest => (digGroup rest).map (fun n => -(n : Int))
  | t => (digGroup t).map Int.ofNat

/-- Mantissa of a float literal: `digits`, `digits.`, `digits.digits` or
`.digits`, valued as an exact rational. -/
def floatMantissa (m : PyStr) : Option ℚ :=
  match m.splitOn '.' with
  | [i] => (digGroup i).map (fun n => (n : ℚ))
  | [i, f] =>
      match i, f with
      | [], [] => none
      | [], _ =>
          (digGroupCountGo 0 0 f).map (fun p => (p.1 : ℚ) / (10 : ℚ) ^ p.2)
      | _, [] => (digGroup i).map (fun n => (n : ℚ))
      | _, _ =>
          match digGroup i, digGroupCountGo 0 0 f with
          | some n, some p => some ((n : ℚ) + (p.1 : ℚ) / (10 : ℚ) ^ p.2)
          | _, _ => none
  | _ => none

/-- Signed exponent of a float literal. -/
def floatExponent (e : PyStr) : Option Int :=
  match e with
  | '+' :: rest => (digGroup rest).map Int.ofNat
  | '-' :: rest => (digGroup rest).map (fun n => -(n : Int))
  | _ => (digGroup e).map Int.ofNat

/-- Model of Python `float(s)` for finite decimal literals (ASCII):
optional surrounding whitespace, optional sign, mantissa with optional
`.`, optional `e`/`E` exponent.  The `inf`/`infinity`/`nan` forms are not
modelled (they are not exact rationals); on them the model returns
`none`. -/
def pyFloatParse (s : PyStr) : Option ℚ :=
  let t := pyStrip s
  let core : PyStr → Option ℚ := fun u =>
    match (u.map Char.toLower).splitOn 'e' with
    | [m] => floatMantissa m
    | [m, ex] =>
        match floatMantissa m, floatExponent ex with
        | some q, some e => some (q * (10 : ℚ) ^ e)
        | _, _ => none
    | _ => none
  match t with
  | '+' :: rest => core rest
  | '-' :: rest => (core rest).map (fun q => -q)
  | _ => core t

/-- Python `int(f)` for a float: truncation toward zero. -/
def pyIntOfFloat (q : ℚ) : Int := if q < 0 then -(⌊-q⌋) else ⌊q⌋

/-- Decimal digits of a natural number (most significant first), driven by
fuel; `natDigits` supplies ample fuel. -/
def natDigitsGo : Nat → Nat → PyStr → PyStr
  | 0, _, acc => acc
  | fuel + 1, n, acc =>
      if n < 10 then Char.ofNat (48 + n) :: acc
      else natDigitsGo fuel (n / 10) (Char.ofNat (48 + n % 10) :: acc)

/-- Decimal digits of a natural number, e.g. `natDigits 42 = "42"`. -/
def natDigits (n : Nat) : PyStr := natDigitsGo (n + 1) n []

/-- Python `str(n)` for an int. -/
def intDigits (n : Int) : PyStr :=
  if n < 0 then '-' :: natDigits n.natAbs else natDigits n.toNat

/-- Zero-pad the decimal digits of `n` to (at least) width `w`. -/
def padNat (w n : Nat) : PyStr :=
  List.replicate (w - (natDigits n).length) '0' ++ natDigits n

/-- Multiplicity of the factor `p` in `n` (fuel-driven). -/
def countFactorGo (p : Nat) : Nat → Nat → Nat
  | 0, _ => 0
  | fuel + 1, n => if 2 ≤ p ∧ n ≠ 0 ∧ n % p = 0 then countFactorGo p fuel (n / p) + 1 else 0

/-- Multiplicity of the factor `p` in `n`. -/
def countFactor (p n : Nat) : Nat := countFactorGo p n n

/-- Model of Python `str(f)`/`repr(f)` for a float under the exact-decimal
idealisation: the minimal exact decimal expansion (always with a decimal
point, as Python prints `5.0` for integral floats), faithful for finite
decimal rationals in the plain-notation magnitude range
`10⁻⁴ ≤ |q| < 10¹⁶` (and `0`).  Outside the faithful range the model
returns a placeholder starting with `'?'` (never a well-formed numeric
token). -/
def pyFloatRepr (q : ℚ) : PyStr :=
  let n := q.num.natAbs
  let d := q.den
  let a := countFactor 2 d
  let b := countFactor 5 d
  if d ≠ 2 ^ a * 5 ^ b then '?' :: natDigits n ++ '/' :: natDigits d
  else
    let k := max a b
    let m := n * 10 ^ k / d
    let sign : PyStr := if q < 0 then ['-'] else []
    if q ≠ 0 ∧ ((q.num.natAbs : ℚ) / (q.den : ℚ) < 1 / 10 ^ 4 ∨ (10 : ℚ) ^ 16 ≤ (q.num.natAbs : ℚ) / (q.den : ℚ)) then
      '?' :: natDigits n ++ '/' :: natDigits d
    else if k = 0 then sign ++ natDigits m ++ pstr ".0"
    else sign ++ natDigits (m / 10 ^ k) ++ '.' :: padNat k (m % 10 ^ k)

/-- Typed values produced by the value inferencer `_get_value_type`:
Python `None`, `str`, `int`, `float` (exact-decimal model),
`datetime.date` and `datetime.time`. -/
inductive Value where
  | none
  | str (s : PyStr)
  | int (n : Int)
  | float (q : ℚ)
  | date (y m d : Nat)
  | time (h mi s us : Nat)
deriving DecidableEq

/-- Lowercase full month names, in `datetime`'s order. -/
def monthNamesLower : List PyStr :=
  [pstr "january", pstr "february", pstr "march", pstr "april",
   pstr "may", pstr "june", pstr "july", pstr "august",
   pstr "september", pstr "october", pstr "november", pstr "december"]

/-- Capitalised full month names, as `strftime('%B')` renders them. -/
def monthNamesCap : List PyStr :=
  [pstr "January", pstr "February", pstr "March", pstr "April",
   pstr "May", pstr "June", pstr "July", pstr "August",
   pstr "September", pstr "October", pstr "November", pstr "December"]

/-- `strptime`'s `%B`: match a full month name (case-insensitively) as a
prefix, returning the month number and the rest of the input. -/
def parseMonthName (s : PyStr) : Option (Nat × PyStr) :=
  let ls := pyLower s
  (List.range 12).findSome? fun i =>
    match monthNamesLower.get? i with
    | some nm => if nm.isPrefixOf ls then some (i + 1, s.drop nm.length) else Option.none
    | Option.none => Option.none

/-- Take exactly `k` leading decimal digits, returning their value and the
rest. -/
def takeDigits : Nat → PyStr → Option (Nat × PyStr)
  | 0, s => some (0, s)
  | k + 1, [] => (fun _ => none) k
  | k + 1, c :: cs =>
      match digVal c with
      | some v =>
          (takeDigits k cs).map (fun p => (v * 10 ^ k + p.1, p.2))
      | none => none

/-- `strptime`'s `%d`/`%m`-style field (regex alternation
`hi-digit-pairs | single nonzero digit`): a two-digit value in
`[1, maxv]` when the next two characters are digits forming one,
otherwise a single nonzero digit. -/
def takeOneOrTwoDigits (maxv : Nat) (s : PyStr) : Option (Nat × PyStr) :=
  match takeDigits 2 s with
  | some (v, rest) => if 1 ≤ v ∧ v ≤ maxv then some (v, rest) else
      match takeDigits 1 s with
      | some (v1, rest1) => if 1 ≤ v1 ∧ v1 ≤ 9 then some (v1, rest1) else none
      | none => none
  | none =>
      match takeDigits 1 s with
      | some (v1, rest1) => if 1 ≤ v1 ∧ v1 ≤ 9 then some (v1, rest1) else none
      | none => none

/-- Gregorian leap year (as `datetime` uses). -/
def isLeap (y : Nat) : Bool := y % 4 = 0 ∧ (y % 100 ≠ 0 ∨ y % 400 = 0)

/-- Days in a month (as `datetime` uses). -/
def daysInMonth (y m : Nat) : Nat :=
  if m = 2 then (if isLeap y then 29 else 28)
  else if m = 4 ∨ m = 6 ∨ m = 9 ∨ m = 11 then 30
  else 31

/-- `datetime.date(y, m, d)` validity (year `1..9999`). -/
def dateValid (y m d : Nat) : Bool :=
  1 ≤ y ∧ y ≤ 9999 ∧ 1 ≤ m ∧ m ≤ 12 ∧ 1 ≤ d ∧ d ≤ daysInMonth y m

/-- `datetime.strptime(value, '%d, %B, %Y')` (when `comma` is true) or
`datetime.strptime(value, '%d %B, %Y')` (when false), taking `.date()`:
day, month name, 4-digit year; the whole string must be consumed and the
date must be valid, else `ValueError`. -/
def strptimeDayMonthYear (comma : Bool) (value : PyStr) : Option (Nat × Nat × Nat) :=
  match takeOneOrTwoDigits 31 value with
  | none => none
  | some (d, r1) =>
      let sep : PyStr := if comma then pstr ", " else pstr " "
      if sep.isPrefixOf r1 then
        match parseMonthName (r1.drop sep.length) with
        | none => none
        | some (m, r2) =>
            if (pstr ", ").isPrefixOf r2 then
              match takeDigits 4 (r2.drop 2) with
              | some (y, []) => if dateValid y m d then some (y, m, d) else none
              | _ => none
            else none
      else none

/-- `datetime.strptime(value, '%Y%m%d').date()`: 4-digit year, 1-2 digit
month and day; whole string consumed; valid date. -/
def strptimeYMD (value : PyStr) : Option (Nat × Nat × Nat) :=
  match takeDigits 4 value with
  | none => none
  | some (y, r1) =>
      match takeOneOrTwoDigits 12 r1 with
      | none => none
      | some (m, r2) =>
          match takeOneOrTwoDigits 31 r2 with
          | some (d, []) => if dateValid y m d then some (y, m, d) else none
          | _ => none

/-- `datetime.time(h, mi, s, us)`: range-checked construction
(`ValueError` outside the clock ranges); arguments are the Python ints
produced by `int()`. -/
def mkTime (h mi s us : Int) : Except PyErr Value :=
  if 0 ≤ h ∧ h < 24 ∧ 0 ≤ mi ∧ mi < 60 ∧ 0 ≤ s ∧ s < 60 ∧ 0 ≤ us ∧ us < 1000000 then
    .ok (.time h.toNat mi.toNat s.toNat us.toNat)
  else .error .valueError

/-- The `'launch time (ut)'` branch of `_get_value_type`, returning the
warnings it logs together with the value or exception. -/
def launchTimeParse (value : PyStr) : List String × Except PyErr Value :=
  if ¬ (':' ∈ value) then ([], .error (.invalidData "Bad Launch time"))
  else
    let ws : List String :=
      if containsSub (pstr "GMT") value then ["Launch time seconds has GMT timezone"] else []
    let attempt1 := ((replaceSub (pstr "GMT") [] value).splitOn ':').map pyIntParse
    let hms : Except PyErr (List Int) :=
      if attempt1.all Option.isSome then
        .ok (attempt1.map (fun o => o.getD 0))
      else
        -- `int()` failed: fall back to `tmp, microseconds = value.split('.')`
        match value.splitOn '.' with
        | [tmp, micro] =>
            let comps := ((replaceSub (pstr "GMT") [] tmp).splitOn ':').map pyIntParse
            if comps.all Option.isSome then
              match pyIntParse micro with
              | some mi => .ok (comps.map (fun o => o.getD 0) ++ [mi])
              | none => .error .valueError
            else .error .valueError
        | _ => .error .valueError   -- unpacking `value.split('.')` fails
    match hms with
    | .error e => (ws, .error e)
    | .ok l =>
        match l with
        | [h, m] => (ws ++ ["Launch time has no seconds"], mkTime h m 0 0)
        | [h, m, s] => (ws, mkTime h m s 0)
        | [h, m, s, us] => (ws, mkTime h m s us)
        | _ => (ws, .error (.invalidData "Bad Launch time"))

/-- The generic (non-special-field) branch of `_get_value_type`:
float when the token contains a `'.'` and parses, else the literal string
for a multi-character token with a leading `'0'`, else int when it
parses, else the literal string. -/
def inferGeneric (value : PyStr) : Value :=
  if '.' ∈ value then
    match pyFloatParse value with
    | some q => .float q
    | none => .str value
  else if value.length > 1 ∧ value.headD ' ' = '0' then .str value
  else
    match pyIntParse value with
    | some n => .int n
    | none => .str value

/-- Model of `pyshadoz._get_value_type(field, value)`: derive the typed
value of a raw token, dispatching on the lowercased field name; returns
the logged warnings together with the value or the raised exception. -/
def get_value_type (field value : PyStr) : List String × Except PyErr Value :=
  if value = [] then ([], .ok .none)
  else if pyLower field = pstr "shadoz format data created" then
    match strptimeDayMonthYear true value with
    | some (y, m, d) => ([], .ok (.date y m d))
    | none =>
        match strptimeDayMonthYear false value with
        | some (y, m, d) => ([], .ok (.date y m d))
        | none => ([], .error .valueError)
  else if pyLower field = pstr "launch date" then
    match strptimeYMD value with
    | some (y, m, d) => ([], .ok (.date y m d))
    | none => ([], .error .valueError)
  else if pyLower field = pstr "launch time (ut)" then launchTimeParse value
  else ([], .ok (inferGeneric value))

/-- The in-memory SHADOZ document model (`pyshadoz.SHADOZ` attributes
`version`, `filename`, `metadata`, `data_fields`, `data_fields_units`,
`data`).  `metadata` is the `OrderedDict` as an insertion-ordered
association list. -/
structure SHADOZDoc where
  version : Option ℚ
  filename : Option PyStr
  metadata : List (PyStr × Value)
  data_fields : List PyStr
  data_fields_units : List PyStr
  data : List (List Value)
deriving DecidableEq

/-- `OrderedDict` assignment `md[k] = v`: update in place when the key
exists, else append. -/
def odSet (md : List (PyStr × Value)) (k : PyStr) (v : Value) : List (PyStr × Value) :=
  if md.any (fun p => p.1 = k) then
    md.map (fun p => if p.1 = k then (k, v) else p)
  else md ++ [(k, v)]

/-- `OrderedDict` lookup `md[k]` (as an `Option`). -/
def odGet (md : List (PyStr × Value)) (k : PyStr) : Option Value :=
  (md.find? (fun p => p.1 = k)).map Prod.snd

/-- The outcome of processing one metadata line: store a value under a
key (with logged warnings), or raise. -/
inductive MetaStep where
  | store (key : PyStr) (v : Value) (w : List String)
  | err (w : List String) (e : PyErr)

/-- Processing of a single metadata line in `SHADOZ.__init__`.  `lastKey`
models the Python local variable `key` surviving between loop
iterations: a line without a `': '` separator stores `None` under the
*previous* line's key, and raises `UnboundLocalError` when there is no
previous key.  A `ValueError` escaping `_get_value_type` is caught and
also stores `None` (under the current line's key); other exceptions
propagate. -/
def metaLineStep (line : PyStr) (lastKey : Option PyStr) : MetaStep :=
  match splitColonSpace line with
  | some (k0, v0) =>
      let key := pyStrip k0
      let value := pyStrip v0
      match get_value_type key value with
      | (w2, .ok v) => .store key v w2
      | (w2, .error e) =>
          if e = .valueError then
            .store key .none (w2 ++ ["No value found for " ++ String.mk key])
          else .err w2 e
  | Option.none =>
      match lastKey with
      | some k => .store k .none ["No value found for " ++ String.mk k]
      | Option.none => .err [] .nameError

/-- The metadata-parsing loop of `SHADOZ.__init__` over
`filelines[1:metadatalines-2]`, accumulating the `OrderedDict` and the
logged warnings. -/
def parseMetaLines :
    List PyStr → Option PyStr → List (PyStr × Value) → List String →
    List String × Except PyErr (List (PyStr × Value))
  | [], _, md, ws => (ws, .ok md)
  | line :: rest, lastKey, md, ws =>
      match metaLineStep line lastKey with
      | .store k v w => parseMetaLines rest (some k) (odSet md k v) (ws ++ w)
      | .err w e => (ws ++ w, .error e)

/-- Resolve the raw `'SHADOZ Version'` metadata value to a float:
`float(value.split()[0])` for a string value, `float(value)` otherwise
(`TypeError` on `None`/dates/times, `ValueError` on an unparsable
token). -/
def resolveVersionValue (v : Value) : Except PyErr ℚ :=
  match v with
  | .str s =>
      match (splitWsTokens s).head? with
      | some tok =>
          match pyFloatParse tok with
          | some q => .ok q
          | none => .error .valueError
      | none => .error .indexError
  | .int n => .ok (n : ℚ)
  | .float q => .ok q
  | _ => .error .typeError

/-- The version check of `SHADOZ.__init__`: look up
`self.metadata['SHADOZ Version']` (`KeyError` when absent), resolve it to
a float, and compare truncated major versions with the caller-supplied
expected version (`InvalidDataError` on mismatch). -/
def checkVersion (md : List (PyStr × Value)) (version : Int) : Except PyErr ℚ :=
  match odGet md (pstr "SHADOZ Version") with
  | Option.none => .error .keyError
  | some v =>
      match resolveVersionValue v with
      | .error e => .error e
      | .ok q =>
          if pyIntOfFloat q ≠ version then .error (.invalidData "Invalid SHADOZ version")
          else .ok q

/-- Parse the two column-header lines `filelines[metadatalines-2]` and
`filelines[metadatalines-1]`: strip, split on runs of 2+ whitespace,
strip each token; the token counts must agree. -/
def parseFieldsUnits (filelines : List PyStr) (metadatalines : Int) :
    Except PyErr (List PyStr × List PyStr) := do
  let fl ← pyListGet filelines (metadatalines - 2)
  let dfs := (splitWs2 (pyStrip fl)).map pyStrip
  let ul ← pyListGet filelines (metadatalines - 1)
  let dfus := (splitWs2 (pyStrip ul)).map pyStrip
  if dfs.length ≠ dfus.length then
    .error (.invalidData "Number of fields not equal to number of field units")
  else .ok (dfs, dfus)

/-- Convert the whitespace-split tokens of one data line via
`_get_value_type('default', v)`, left to right, accumulating warnings and
propagating the first exception (as the Python list comprehension
does). -/
def mapTokens : List PyStr → List String × Except PyErr (List Value)
  | [] => ([], .ok [])
  | t :: ts =>
      match get_value_type (pstr "default") t with
      | (w, .ok v) =>
          match mapTokens ts with
          | (w2, .ok vs) => (w ++ w2, .ok (v :: vs))
          | (w2, .error e) => (w ++ w2, .error e)
      | (w, .error e) => (w, .error e)

/-- The data-row loop of `SHADOZ.__init__` over `filelines[metadatalines:]`:
each line is stripped, whitespace-split, value-inferred; a row whose
length differs from the field count raises `InvalidDataError`. -/
def parseDataRows (nfields : Nat) : List PyStr → List String → List String × Except PyErr (List (List Value))
  | [], ws => (ws, .ok [])
  | dl :: rest, ws =>
      match mapTokens (splitWsTokens (pyStrip dl)) with
      | (w2, .error e) => (ws ++ w2, .error e)
      | (w2, .ok row) =>
          if row.length ≠ nfields then
            (ws ++ w2, .error (.invalidData "Data length not equal to number of fields"))
          else
            match parseDataRows nfields rest (ws ++ w2) with
            | (w3, .ok rows) => (w3, .ok (row :: rows))
            | (w3, .error e) => (w3, .error e)

/-- Data-row stage of `SHADOZ.__init__` (after the column headers). -/
def parseAfterFields (filelines : List PyStr) (metadatalines : Int)
    (ws : List String) (md : List (PyStr × Value)) (ver : ℚ)
    (dfs dfus : List PyStr) : List String × Except PyErr SHADOZDoc :=
  match parseDataRows dfs.length (pySliceFrom filelines metadatalines) [] with
  | (w2, .error e) => (ws ++ w2, .error e)
  | (w2, .ok rows) =>
      (ws ++ w2, .ok ⟨some ver, Option.none, md, dfs, dfus, rows⟩)

/-- Column-header stage of `SHADOZ.__init__` (after the version check). -/
def parseAfterVersion (filelines : List PyStr) (metadatalines : Int)
    (ws : List String) (md : List (PyStr × Value)) (ver : ℚ) :
    List String × Except PyErr SHADOZDoc :=
  match parseFieldsUnits filelines metadatalines with
  | .error e => (ws, .error e)
  | .ok (dfs, dfus) => parseAfterFields filelines metadatalines ws md ver dfs dfus

/-- Version-check stage of `SHADOZ.__init__` (after the metadata loop). -/
def parseAfterMeta (filelines : List PyStr) (version metadatalines : Int)
    (ws : List String) (md : List (PyStr × Value)) :
    List String × Except PyErr SHADOZDoc :=
  match checkVersion md version with
  | .error e => (ws, .error e)
  | .ok ver => parseAfterVersion filelines metadatalines ws md ver

/-- Metadata stage of `SHADOZ.__init__` (after the header-count parse). -/
def parseAfterCount (filelines : List PyStr) (version metadatalines : Int) :
    List String × Except PyErr SHADOZDoc :=
  match parseMetaLines (pySlice filelines 1 (metadatalines - 2)) Option.none [] [] with
  | (ws, .error e) => (ws, .error e)
  | (ws, .ok md) => parseAfterMeta filelines version metadatalines ws md

/-- Model of the parsing path of `SHADOZ.__init__(ioobj, version)`:
format sniff for the `'SHADOZ Version'` marker, header-count parse,
metadata block, version check, column headers, data rows.  Returns the
accumulated warnings together with the populated document or the raised
exception. -/
def parseSHADOZ (filelines : List PyStr) (version : Int) :
    List String × Except PyErr SHADOZDoc :=
  if ¬ filelines.any (fun s => containsSub (pstr "SHADOZ Version") s) then
    ([], .error (.invalidData "Unable to detect SHADOZ format"))
  else
    match pyIntParse (filelines.headD []) with
    | Option.none => ([], .error (.invalidData "Invalid SHADOZ metadata lines value"))
    | some metadatalines => parseAfterCount filelines version metadatalines

/-- Model of `pyshadoz.loads(strbuf)`: parse a string buffer with the
default expected version 5. -/
def loads (strbuf : PyStr) : List String × Except PyErr SHADOZDoc :=
  parseSHADOZ (pyReadLines strbuf) 5

/-- `strftime('%d %B, %Y')` for the creation-date key (zero-padded day,
capitalised month name, 4-digit year). -/
def strftimeCreated (y m d : Nat) : PyStr :=
  padNat 2 d ++ [' '] ++ (monthNamesCap.getD (m - 1) (pstr "?")) ++ pstr ", " ++ padNat 4 y

/-- `strftime('%Y%m%d')`. -/
def strftimeYMDs (y m d : Nat) : PyStr := padNat 4 y ++ padNat 2 m ++ padNat 2 d

/-- `strftime('%H:%M:%S')` (sub-second precision is dropped). -/
def strftimeHMS (h mi s : Nat) : PyStr :=
  padNat 2 h ++ [':'] ++ padNat 2 mi ++ [':'] ++ padNat 2 s

/-- Python `str(v)` as used when formatting a metadata value that is not
a date or time (`str(None)` is `"None"`). -/
def strOfValue : Value → PyStr
  | .none => pstr "None"
  | .str s => s
  | .int n => intDigits n
  | .float q => pyFloatRepr q
  | .date y m d => strftimeYMDs y m d     -- unreachable in `write` (dates routed earlier)
  | .time h mi s _ => strftimeHMS h mi s  -- unreachable in `write` (times routed earlier)

/-- Python `repr(v)` as used when formatting data-row values.  `repr` of
a string wraps it in single quotes (escape sequences not modelled);
`repr` of a date renders constructor form; `repr` of a time renders
constructor form with the second omitted when second and microsecond are
both zero and the microsecond omitted when zero, as
`datetime.time.__repr__` does. -/
def reprOfValue : Value → PyStr
  | .none => pstr "None"
  | .str s => Char.ofNat 39 :: s ++ [Char.ofNat 39]
  | .int n => intDigits n
  | .float q => pyFloatRepr q
  | .date y m d => pstr "datetime.date(" ++ natDigits y ++ pstr ", " ++ natDigits m ++ pstr ", " ++ natDigits d ++ pstr ")"
  | .time h mi s us =>
      pstr "datetime.time(" ++ natDigits h ++ pstr ", " ++ natDigits mi ++
        (if us ≠ 0 then pstr ", " ++ natDigits s ++ pstr ", " ++ natDigits us
         else if s ≠ 0 then pstr ", " ++ natDigits s
         else []) ++ pstr ")"

/-- The per-value rendering of a metadata entry in `SHADOZ.write`:
the exact key `'SHADOZ format data created'` is rendered via
`value.strftime('%d %B, %Y')` (an `AttributeError` when the value has no
`strftime`, and 1900-01-01 defaults when it is a bare time); otherwise
times render as `%H:%M:%S`, dates as `%Y%m%d`, and everything else via
`str`. -/
def renderMetaValue (k : PyStr) (v : Value) : Except PyErr PyStr :=
  if k = pstr "SHADOZ format data created" then
    match v with
    | .date y m d => .ok (strftimeCreated y m d)
    | .time _ _ _ _ => .ok (strftimeCreated 1900 1 1)
    | _ => .error .attributeError
  else
    match v with
    | .time h mi s _ => .ok (strftimeHMS h mi s)
    | .date y m d => .ok (strftimeYMDs y m d)
    | _ => .ok (strOfValue v)

/-- Join right-justified (width 10) tokens with single spaces, as
`' '.join([t.rjust(10) for t in ts])`. -/
def joinR (ts : List PyStr) : PyStr :=
  List.intercalate (pstr " ") (ts.map (rjust 10))

/-- Model of `SHADOZ.write()`: header count `len(metadata) + 3`, metadata
lines with keys left-justified to the maximum key width, the two
column-header lines (with the cosmetic `'      Time'`/`'      sec'`
padding collapses), the data rows via `repr`, all joined by newlines with
`re.sub('^     ', '', line)` applied to each line.  `max()` of an empty
metadata raises `ValueError`; the result of the dead
`dl.replace('     ', '')` on line 244 of the source is discarded there
and so not modelled. -/
def write (s : SHADOZDoc) : Except PyErr PyStr := do
  if s.metadata = [] then
    .error .valueError
  else
    let line0 := natDigits (s.metadata.length + 3)
    let mwidth := (s.metadata.map (fun p => p.1.length)).foldl max 0
    let metaLines ← s.metadata.mapM (fun p => do
      let v2 ← renderMetaValue p.1 p.2
      pure (ljust mwidth p.1 ++ pstr ": " ++ v2))
    let dfl := replaceSub (pstr "      Time") (pstr "Time") (joinR s.data_fields)
    let dful := replaceSub (pstr "      sec") (pstr "sec") (joinR s.data_fields_units)
    let dataLines := s.data.map (fun row =>
      List.intercalate (pstr " ") (row.map (fun d => rjust 10 (reprOfValue d))))
    let allLines := [line0] ++ metaLines ++ [dfl, dful] ++ dataLines
    pure (List.intercalate (pstr "\n") (allLines.map stripFiveSpaces))

/-- Model of `SHADOZ.get_data_fields()`: `list(zip(fields, units))`. -/
def get_data_fields (s : SHADOZDoc) : List (PyStr × PyStr) :=
  s.data_fields.zip s.data_fields_units

/-- `[i for i, x in enumerate(l) if x == target]` where `target` may be
Python `None` (never equal to a string). -/
def enumIdxs (l : List PyStr) (target : Option PyStr) : List Nat :=
  (l.enum.filter (fun p => some p.2 = target)).map Prod.fst

/-- `list(set(a).intersection(b))` for lists of small distinct column
indices.  CPython iterates a set of small nonnegative ints in ascending
hash-table order; since `a` is produced by `enumerate` it is ascending,
so the intersection is modelled by an order-preserving filter. -/
def setIntersectList (a b : List Nat) : List Nat := a.filter (fun i => i ∈ b)

/-- Result shape of `SHADOZ.get_data`: the full table, or one column. -/
inductive GetDataResult where
  | table (rows : List (List Value))
  | col (vals : List Value)
deriving DecidableEq

/-- Model of `SHADOZ.get_data(data_field, data_field_unit, by_index)`:
by index, all data, first column matching a field name, or the column
matching both field and unit (raising `DataAccessError` when the
intersection is empty).  The unguarded `data_field_indexes[0]` inside the
row comprehension raises `IndexError` per row, so it is only reached when
there is at least one row. -/
def get_data (s : SHADOZDoc) (data_field : Option PyStr)
    (data_field_unit : Option PyStr) (by_index : Option Int) :
    Except PyErr GetDataResult :=
  match by_index with
  | some i => (s.data.mapM (fun row => pyListGet row i)).map .col
  | Option.none =>
      if data_field = Option.none ∧ data_field_unit = Option.none then .ok (.table s.data)
      else
        let dfi := enumIdxs s.data_fields data_field
        match data_field_unit with
        | Option.none =>
            (s.data.mapM (fun row => do
              let i ← natGet dfi 0
              natGet row i)).map .col
        | some u =>
            let dfui := enumIdxs s.data_fields_units (some u)
            match (setIntersectList dfi dfui).head? with
            | some i => (s.data.mapM (fun row => natGet row i)).map .col
            | Option.none => .error (.dataAccess "Data field/unit mismatch")

/-- Model of `SHADOZ.get_data_index(data_field, data_field_unit)`:
`data_field_indexes[0]` when no unit is supplied (`IndexError` when the
field matches nothing); with a unit, the first element of the
intersection, or Python's implicit `None` return when it is empty. -/
def get_data_index (s : SHADOZDoc) (data_field : PyStr)
    (data_field_unit : Option PyStr) : Except PyErr (Option Nat) :=
  let dfi := enumIdxs s.data_fields (some data_field)
  let dfui := enumIdxs s.data_fields_units data_field_unit
  match data_field_unit with
  | Option.none => (natGet dfi 0).map some
  | some _ => .ok (setIntersectList dfi dfui).head?

/-! ## Helper lemmas about the accessor primitives -/

theorem mem_enumIdxs {l : List PyStr} {x : PyStr} {i : Nat} :
    i ∈ enumIdxs l (some x) ↔ l.get? i = some x := by
  simp only [enumIdxs, List.mem_map, List.mem_filter]
  constructor
  · rintro ⟨⟨j, y⟩, ⟨hmem, hy⟩, rfl⟩
    have hy2 : y = x := by simpa using of_decide_eq_true hy
    subst hy2
    simpa [List.get?_eq_getElem?] using (List.mk_mem_enum_iff_getElem?).1 hmem
  · intro h
    refine ⟨(i, x), ⟨?_, decide_eq_true (by simp)⟩, rfl⟩
    exact (List.mk_mem_enum_iff_getElem?).2 (by simpa [List.get?_eq_getElem?] using h)

theorem mem_setIntersectList {a b : List Nat} {i : Nat} :
    i ∈ setIntersectList a b ↔ i ∈ a ∧ i ∈ b := by
  simp [setIntersectList, List.mem_filter]

theorem enumIdxs_eq_nil {l : List PyStr} {x : PyStr}
    (h : ∀ i, l.get? i ≠ some x) : enumIdxs l (some x) = [] := by
  rw [List.eq_nil_iff_forall_not_mem]
  intro i hi
  exact h i (mem_enumIdxs.1 hi)

theorem mapM_natGet_eq (data : List (List Value)) (i : Nat)
    (h : ∀ row ∈ data, i < row.length) :
    data.mapM (fun row => natGet row i) = .ok (data.map (fun row => row.getD i .none)) := by
  induction data with
  | nil => rfl
  | cons r rs ih =>
    have hr : i < r.length := h r (by simp)
    have h1 : natGet r i = .ok (r.getD i Value.none) := by
      simp [natGet, List.getD, List.get?_eq_getElem?, List.getElem?_eq_getElem hr]
    rw [List.mapM_cons, h1, ih (fun row hrow => h row (List.mem_cons_of_mem _ hrow))]
    rfl

/-! ## Claim theorems: accessors -/

/-- **C10.** For every Document, `get_data_fields` returns exactly
`min (len fields) (len units)` pairs, pairing `fields[i]` with `units[i]`
in column order; excess entries of the longer list are silently
dropped. -/
theorem C10_get_data_fields_zip (s : SHADOZDoc) :
    (get_data_fields s).length = min s.data_fields.length s.data_fields_units.length ∧
    ∀ i, i < min s.data_fields.length s.data_fields_units.length →
      (get_data_fields s).get? i =
        some (s.data_fields.getD i [], s.data_fields_units.getD i []) := by
  constructor
  · simp [get_data_fields]
  · intro i hi
    have h1 : i < s.data_fields.length := lt_of_lt_of_le hi (min_le_left _ _)
    have h2 : i < s.data_fields_units.length := lt_of_lt_of_le hi (min_le_right _ _)
    simp [get_data_fields, List.get?_eq_getElem?, List.getElem?_zip_eq_some,
      List.getElem?_eq_getElem h1, List.getElem?_eq_getElem h2, List.getD,
      List.get?_eq_getElem?]

/-- Concrete document exercising `get_data_fields` with unequal
`fields`/`units` lengths. -/
def docFieldsUnits : SHADOZDoc :=
  ⟨Option.none, Option.none, [],
   [pstr "Time", pstr "Press", pstr "Alt"], [pstr "sec", pstr "hPa"], []⟩

/-- Witness for C10 at a concrete document: 3 fields and 2 units give 2
pairs, paired positionally. -/
theorem C10_get_data_fields_zip_witness :
    (get_data_fields docFieldsUnits).length =
      min docFieldsUnits.data_fields.length docFieldsUnits.data_fields_units.length ∧
    (get_data_fields docFieldsUnits).get? 1 =
      some (docFieldsUnits.data_fields.getD 1 [], docFieldsUnits.data_fields_units.getD 1 []) :=
  ⟨(C10_get_data_fields_zip docFieldsUnits).1,
   (C10_get_data_fields_zip docFieldsUnits).2 1 (by decide)⟩

theorem head?_eq_of_mem_of_unique {L : List Nat} {i : Nat}
    (hi : i ∈ L) (huniq : ∀ j ∈ L, j = i) : L.head? = some i := by
  cases L with
  | nil => cases hi
  | cons a t => simpa using huniq a (List.mem_cons_self a t)

theorem get_data_unit_reduce (s : SHADOZDoc) (f u : PyStr) :
    get_data s (some f) (some u) Option.none =
      match (setIntersectList (enumIdxs s.data_fields (some f))
          (enumIdxs s.data_fields_units (some u))).head? with
      | some i => (s.data.mapM (fun row => natGet row i)).map GetDataResult.col
      | Option.none => .error (.dataAccess "Data field/unit mismatch") := rfl

theorem get_data_first_reduce (s : SHADOZDoc) (f : PyStr) :
    get_data s (some f) Option.none Option.none =
      (s.data.mapM (fun row => do
        let i ← natGet (enumIdxs s.data_fields (some f)) 0
        natGet row i)).map GetDataResult.col := rfl

theorem get_data_index_unit_reduce (s : SHADOZDoc) (f u : PyStr) :
    get_data_index s f (some u) =
      .ok (setIntersectList (enumIdxs s.data_fields (some f))
          (enumIdxs s.data_fields_units (some u))).head? := rfl

theorem get_data_index_nounit_reduce (s : SHADOZDoc) (f : PyStr) :
    get_data_index s f Option.none =
      (natGet (enumIdxs s.data_fields (some f)) 0).map some := rfl

/-! ## Claim theorems: accessors -/

/-- **C7.** For every Document (with the row-length invariant),
`get_data(field, unit)` returns the column where both the field name and
the unit match exactly (stated for the unique matching column); when no
column satisfies both it raises `DataAccessError`; and when a matching
column exists but the Document has no rows it returns the empty list
rather than erroring. -/
theorem C7_get_data_field_unit (s : SHADOZDoc) (f u : PyStr)
    (wf : ∀ row ∈ s.data, row.length = s.data_fields.length) :
    (∀ i, s.data_fields.get? i = some f → s.data_fields_units.get? i = some u →
      (∀ j, s.data_fields.get? j = some f → s.data_fields_units.get? j = some u → j = i) →
      get_data s (some f) (some u) Option.none =
        .ok (.col (s.data.map (fun row => row.getD i Value.none)))) ∧
    ((∀ j, ¬ (s.data_fields.get? j = some f ∧ s.data_fields_units.get? j = some u)) →
      get_data s (some f) (some u) Option.none =
        .error (.dataAccess "Data field/unit mismatch")) ∧
    (s.data = [] →
      (∃ j, s.data_fields.get? j = some f ∧ s.data_fields_units.get? j = some u) →
      get_data s (some f) (some u) Option.none = .ok (.col [])) := by
  refine ⟨?_, ?_, ?_⟩
  · intro i hf hu huniq
    have hi : i ∈ setIntersectList (enumIdxs s.data_fields (some f))
        (enumIdxs s.data_fields_units (some u)) :=
      mem_setIntersectList.2 ⟨mem_enumIdxs.2 hf, mem_enumIdxs.2 hu⟩
    have hall : ∀ j ∈ setIntersectList (enumIdxs s.data_fields (some f))
        (enumIdxs s.data_fields_units (some u)), j = i := by
      intro j hj
      have hj2 := mem_setIntersectList.1 hj
      exact huniq j (mem_enumIdxs.1 hj2.1) (mem_enumIdxs.1 hj2.2)
    have hhead := head?_eq_of_mem_of_unique hi hall
    have hlen : i < s.data_fields.length := by
      rcases List.get?_eq_some.1 hf with ⟨h, _⟩
      exact h
    have hmap := mapM_natGet_eq s.data i (fun row hrow => (wf row hrow) ▸ hlen)
    rw [get_data_unit_reduce, hhead]
    show (s.data.mapM (fun row => natGet row i)).map GetDataResult.col = _
    rw [hmap]
    rfl
  · intro hnone
    have hempty : setIntersectList (enumIdxs s.data_fields (some f))
        (enumIdxs s.data_fields_units (some u)) = [] := by
      rw [List.eq_nil_iff_forall_not_mem]
      intro j hj
      have hj2 := mem_setIntersectList.1 hj
      exact hnone j ⟨mem_enumIdxs.1 hj2.1, mem_enumIdxs.1 hj2.2⟩
    rw [get_data_unit_reduce, hempty]
    rfl
  · intro hdata ⟨j, hf, hu⟩
    have hj : j ∈ setIntersectList (enumIdxs s.data_fields (some f))
        (enumIdxs s.data_fields_units (some u)) :=
      mem_setIntersectList.2 ⟨mem_enumIdxs.2 hf, mem_enumIdxs.2 hu⟩
    rw [get_data_unit_reduce]
    rcases hL : setIntersectList (enumIdxs s.data_fields (some f))
        (enumIdxs s.data_fields_units (some u)) with _ | ⟨a, t⟩
    · rw [hL] at hj; cases hj
    · rw [hdata]
      rfl

/-- Concrete document with two O3 columns distinguished by unit, one row. -/
def docO3 : SHADOZDoc :=
  ⟨Option.none, Option.none, [],
   [pstr "O3", pstr "O3"], [pstr "mPa", pstr "ppmv"],
   [[.float 32.91, .float 1.2]]⟩

/-- Witness for C7 at `docO3`: `get_data("O3", "ppmv")` returns column 1,
`get_data("O3", "du")` raises the data-access error, and on the rowless
variant the match returns the empty column. -/
theorem C7_get_data_field_unit_witness :
    get_data docO3 (some (pstr "O3")) (some (pstr "ppmv")) Option.none =
      .ok (.col (docO3.data.map (fun row => row.getD 1 Value.none))) ∧
    get_data docO3 (some (pstr "O3")) (some (pstr "du")) Option.none =
      .error (.dataAccess "Data field/unit mismatch") ∧
    get_data ⟨Option.none, Option.none, [], docO3.data_fields, docO3.data_fields_units, []⟩
        (some (pstr "O3")) (some (pstr "ppmv")) Option.none = .ok (.col []) := by
  refine ⟨?_, ?_, ?_⟩
  · refine (C7_get_data_field_unit docO3 (pstr "O3") (pstr "ppmv") (by decide)).1 1
      (by decide) (by decide) ?_
    intro j h1 h2
    match j with
    | 0 => exact absurd h2 (by decide)
    | 1 => rfl
    | j + 2 => exact absurd h1 (by simp [docO3])
  · refine (C7_get_data_field_unit docO3 (pstr "O3") (pstr "du") (by decide)).2.1 ?_
    intro j h
    match j with
    | 0 => exact absurd h.2 (by decide)
    | 1 => exact absurd h.2 (by decide)
    | j + 2 => exact absurd h.1 (by simp [docO3])
  · exact (C7_get_data_field_unit _ (pstr "O3") (pstr "ppmv") (by simp)).2.2 rfl
      ⟨1, by decide, by decide⟩

theorem enumIdxs_eq_nil_of_not_mem {l : List PyStr} {f : PyStr} (h : f ∉ l) :
    enumIdxs l (some f) = [] :=
  enumIdxs_eq_nil (fun i hi => h (List.get?_mem hi))

/-- A document with one column and no data rows. -/
def docNoRows : SHADOZDoc :=
  ⟨Option.none, Option.none, [], [pstr "A"], [pstr "u"], []⟩

/-- **C9, counterexample.**  The claim says an unmatched field name with
no unit *always* fails with the out-of-bounds index error; but on a
document with no rows the unguarded `data_field_indexes[0]` inside the
row comprehension is never evaluated, and the empty column is returned
instead. -/
theorem C9_counterexample :
    (pstr "zzz") ∉ docNoRows.data_fields ∧
    get_data docNoRows (some (pstr "zzz")) Option.none Option.none = .ok (.col []) := by
  exact ⟨by decide, rfl⟩

/-- **C9, amended.**  For every Document with at least one data row, an
unmatched field name with no unit makes `get_data` fail with the generic
`IndexError` (the unguarded `data_field_indexes[0]`), not the
`DataAccessError`; on a rowless Document the empty column is returned
instead. -/
theorem C9_unmatched_field_index_error (s : SHADOZDoc) (f : PyStr)
    (h : f ∉ s.data_fields) :
    (s.data ≠ [] → get_data s (some f) Option.none Option.none = .error .indexError) ∧
    (s.data = [] → get_data s (some f) Option.none Option.none = .ok (.col [])) := by
  have hidx : enumIdxs s.data_fields (some f) = [] := enumIdxs_eq_nil_of_not_mem h
  constructor
  · intro hne
    rcases hd : s.data with _ | ⟨r, rest⟩
    · exact absurd hd hne
    · rw [get_data_first_reduce, hidx, hd, List.mapM_cons]
      rfl
  · intro hd
    rw [get_data_first_reduce, hidx, hd]
    rfl

/-- Witness for the amended C9 at concrete documents: `docO3` has a row
(IndexError), `docNoRows` has none (empty column). -/
theorem C9_unmatched_field_index_error_witness :
    get_data docO3 (some (pstr "zzz")) Option.none Option.none = .error .indexError ∧
    get_data docNoRows (some (pstr "zzz")) Option.none Option.none = .ok (.col []) :=
  ⟨(C9_unmatched_field_index_error docO3 (pstr "zzz") (by decide)).1 (by decide),
   (C9_unmatched_field_index_error docNoRows (pstr "zzz") (by decide)).2 rfl⟩

/-- **C8, counterexample.**  The claim says `get_data_index` follows the
same rules as `get_data` *including the error case*; but on a (field,
unit) pair matching no column, `get_data` raises `DataAccessError` while
`get_data_index` silently returns Python `None`. -/
theorem C8_counterexample :
    get_data docO3 (some (pstr "O3")) (some (pstr "du")) Option.none =
      .error (.dataAccess "Data field/unit mismatch") ∧
    get_data_index docO3 (pstr "O3") (some (pstr "du")) = .ok Option.none := by
  exact ⟨rfl, rfl⟩

/-- **C8, amended.**  `get_data_index` resolves to the same column
position that `get_data` reads whenever a matching column exists (in
particular, with the unit omitted both pick the first occurrence), and
`get_data(field, unit)` equals the row values at that index; but the
error cases diverge: with a unit and no matching column `get_data`
raises the data-access error while `get_data_index` returns `None`, and
with no unit and no matching field both raise `IndexError` except on a
rowless document, where `get_data` returns the empty column while
`get_data_index` still raises. -/
theorem C8_get_data_index_consistency :
    (∀ (s : SHADOZDoc) (f u : PyStr),
      get_data s (some f) (some u) Option.none =
        (match get_data_index s f (some u) with
         | .ok (some i) => (s.data.mapM (fun row => natGet row i)).map GetDataResult.col
         | _ => .error (.dataAccess "Data field/unit mismatch"))) ∧
    (∀ (s : SHADOZDoc) (f : PyStr) (i : Nat),
      get_data_index s f Option.none = .ok (some i) →
      get_data s (some f) Option.none Option.none =
        (s.data.mapM (fun row => natGet row i)).map GetDataResult.col) ∧
    (∀ (s : SHADOZDoc) (f u : PyStr),
      (∀ j, ¬ (s.data_fields.get? j = some f ∧ s.data_fields_units.get? j = some u)) →
      get_data s (some f) (some u) Option.none =
        .error (.dataAccess "Data field/unit mismatch") ∧
      get_data_index s f (some u) = .ok Option.none) ∧
    (∀ (s : SHADOZDoc) (f : PyStr), f ∉ s.data_fields →
      get_data_index s f Option.none = .error .indexError ∧
      (s.data = [] → get_data s (some f) Option.none Option.none = .ok (.col []))) := by
  refine ⟨?_, ?_, ?_, ?_⟩
  · intro s f u
    rw [get_data_unit_reduce, get_data_index_unit_reduce]
    rcases (setIntersectList (enumIdxs s.data_fields (some f))
        (enumIdxs s.data_fields_units (some u))).head? with _ | i
    · rfl
    · rfl
  · intro s f i hidx
    rw [get_data_index_nounit_reduce] at hidx
    have hnat : natGet (enumIdxs s.data_fields (some f)) 0 = .ok i := by
      rcases hn : natGet (enumIdxs s.data_fields (some f)) 0 with e | j
      · rw [hn] at hidx; cases hidx
      · rw [hn] at hidx
        cases hidx
        rfl
    rw [get_data_first_reduce]
    have hfun : (fun row : List Value => do
        let i ← natGet (enumIdxs s.data_fields (some f)) 0
        natGet row i) = (fun row : List Value => natGet row i) := by
      funext row
      rw [hnat]
      rfl
    rw [hfun]
  · intro s f u hnone
    have hempty : setIntersectList (enumIdxs s.data_fields (some f))
        (enumIdxs s.data_fields_units (some u)) = [] := by
      rw [List.eq_nil_iff_forall_not_mem]
      intro j hj
      have hj2 := mem_setIntersectList.1 hj
      exact hnone j ⟨mem_enumIdxs.1 hj2.1, mem_enumIdxs.1 hj2.2⟩
    constructor
    · rw [get_data_unit_reduce, hempty]
      rfl
    · rw [get_data_index_unit_reduce, hempty]
      rfl
  · intro s f h
    have hidx : enumIdxs s.data_fields (some f) = [] := enumIdxs_eq_nil_of_not_mem h
    constructor
    · rw [get_data_index_nounit_reduce, hidx]
      rfl
    · intro hd
      rw [get_data_first_reduce, hidx, hd]
      rfl

/-- Witness for the amended C8 at `docO3`: the matching query agrees with
the resolved index, and the two no-match behaviours are exhibited. -/
theorem C8_get_data_index_consistency_witness :
    get_data docO3 (some (pstr "O3")) (some (pstr "ppmv")) Option.none =
      (match get_data_index docO3 (pstr "O3") (some (pstr "ppmv")) with
       | .ok (some i) => (docO3.data.mapM (fun row => natGet row i)).map GetDataResult.col
       | _ => .error (.dataAccess "Data field/unit mismatch")) ∧
    get_data docO3 (some (pstr "O3")) Option.none Option.none =
      (docO3.data.mapM (fun row => natGet row 0)).map GetDataResult.col ∧
    get_data_index docNoRows (pstr "zzz") Option.none = .error .indexError :=
  ⟨C8_get_data_index_consistency.1 docO3 (pstr "O3") (pstr "ppmv"),
   ⟨C8_get_data_index_consistency.2.1 docO3 (pstr "O3") 0 rfl,
    (C8_get_data_index_consistency.2.2.2 docNoRows (pstr "zzz") (by decide)).1⟩⟩

/-! ## Claim theorems: the value inferencer -/

theorem mem_dropWhile_of_mem {p : Char → Bool} {c : Char} :
    ∀ {l : PyStr}, c ∈ l → p c = false → c ∈ l.dropWhile p
  | [], h, _ => absurd h (List.not_mem_nil c)
  | a :: t, h, hc => by
      by_cases ha : p a
      · rw [List.dropWhile_cons_of_pos ha]
        rcases List.mem_cons.1 h with rfl | ht
        · rw [ha] at hc; cases hc
        · exact mem_dropWhile_of_mem ht hc
      · rw [List.dropWhile_cons_of_neg ha]
        exact h

theorem mem_pyStrip_of_mem {c : Char} {s : PyStr} (h : c ∈ s)
    (hc : pyWS c = false) : c ∈ pyStrip s := by
  unfold pyStrip
  have h1 : c ∈ s.dropWhile pyWS := mem_dropWhile_of_mem h hc
  have h2 : c ∈ (s.dropWhile pyWS).reverse := List.mem_reverse.2 h1
  exact List.mem_reverse.2 (mem_dropWhile_of_mem h2 hc)

theorem digGroupGo_dot_aux :
    ∀ (n : Nat) (l : PyStr), l.length ≤ n → '.' ∈ l → ∀ acc, digGroupGo acc l = none := by
  intro n
  induction n with
  | zero =>
    intro l hl h acc
    rw [List.length_eq_zero.1 (Nat.le_zero.1 hl)] at h
    cases h
  | succ n ih =>
    intro l hl h acc
    match l, hl, h with
    | c :: cs, hl, h =>
      rcases List.mem_cons.1 h with rfl | hcs
      · unfold digGroupGo
        rw [if_neg (by decide)]
        rfl
      · unfold digGroupGo
        by_cases hc : c = '_'
        · rw [if_pos hc]
          match cs, hcs, hl with
          | d :: ds, hcs, hl =>
            show (match digVal d with
                  | some k => digGroupGo (10 * acc + k) ds
                  | none => none) = none
            rcases hd : digVal d with _ | k
            · rfl
            · rcases List.mem_cons.1 hcs with rfl | hds
              · exfalso
                revert hd
                unfold digVal
                rw [if_neg (by decide)]
                intro hd
                cases hd
              · refine ih ds ?_ hds _
                simp only [List.length_cons] at hl
                omega
        · rw [if_neg hc]
          rcases hd : digVal c with _ | k
          · rfl
          · refine ih cs ?_ hcs _
            simp only [List.length_cons] at hl
            omega

theorem digGroup_dot {l : PyStr} (h : '.' ∈ l) : digGroup l = none := by
  match l, h with
  | c :: cs, h =>
    unfold digGroup
    show (match digVal c with
          | some k => digGroupGo k cs
          | none => none) = none
    rcases List.mem_cons.1 h with rfl | hcs
    · rw [show digVal '.' = none from by decide]
    · rcases hd : digVal c with _ | k
      · rfl
      · exact digGroupGo_dot_aux cs.length cs le_rfl hcs k

/-- A token containing a `'.'` never parses as a Python int. -/
theorem pyIntParse_dot_none {value : PyStr} (h : '.' ∈ value) :
    pyIntParse value = none := by
  have hs : '.' ∈ pyStrip value := mem_pyStrip_of_mem h (by decide)
  unfold pyIntParse
  split
  next rest heq =>
    have h2 : '.' ∈ ('+' :: rest) := heq ▸ hs
    have hr : '.' ∈ rest := by
      rcases List.mem_cons.1 h2 with h3 | h3
      · cases h3
      · exact h3
    rw [digGroup_dot hr]
    rfl
  next rest heq =>
    have h2 : '.' ∈ ('-' :: rest) := heq ▸ hs
    have hr : '.' ∈ rest := by
      rcases List.mem_cons.1 h2 with h3 | h3
      · cases h3
      · exact h3
    rw [digGroup_dot hr]
    rfl
  next =>
    rw [digGroup_dot hs]
    rfl

/-- For a field name matching none of the three special metadata labels,
`_get_value_type` takes the generic inference branch (and logs no
warnings). -/
theorem get_value_type_generic (field value : PyStr)
    (h1 : pyLower field ≠ pstr "shadoz format data created")
    (h2 : pyLower field ≠ pstr "launch date")
    (h3 : pyLower field ≠ pstr "launch time (ut)")
    (hv : value ≠ []) :
    get_value_type field value = ([], .ok (inferGeneric value)) := by
  unfold get_value_type
  rw [if_neg hv, if_neg h1, if_neg h2, if_neg h3]

/-- **C4.** For every field name not matching one of the three special
metadata labels and every raw token, the value inferencer returns: the
absent marker `None` (not the empty string) for the empty token;
otherwise a float when the token contains `'.'` and parses as one;
otherwise the literal string when the token has length > 1 and starts
with `'0'`; otherwise an int when it parses as one; otherwise the token
itself as a string — so `"007"` stays a string, `"0.5"` becomes a float,
and `"42"` becomes an int. -/
theorem C4_get_value_type_generic_cascade (field value : PyStr)
    (h1 : pyLower field ≠ pstr "shadoz format data created")
    (h2 : pyLower field ≠ pstr "launch date")
    (h3 : pyLower field ≠ pstr "launch time (ut)") :
    (value = [] →
      get_value_type field value = ([], .ok Value.none) ∧ Value.none ≠ Value.str []) ∧
    (∀ q, value ≠ [] → '.' ∈ value → pyFloatParse value = some q →
      get_value_type field value = ([], .ok (.float q))) ∧
    (value ≠ [] → ¬ ('.' ∈ value ∧ (pyFloatParse value).isSome) →
      value.length > 1 → value.headD ' ' = '0' →
      get_value_type field value = ([], .ok (.str value))) ∧
    (∀ n, value ≠ [] → ¬ ('.' ∈ value ∧ (pyFloatParse value).isSome) →
      ¬ (value.length > 1 ∧ value.headD ' ' = '0') → pyIntParse value = some n →
      get_value_type field value = ([], .ok (.int n))) ∧
    (value ≠ [] → ¬ ('.' ∈ value ∧ (pyFloatParse value).isSome) →
      ¬ (value.length > 1 ∧ value.headD ' ' = '0') → pyIntParse value = none →
      get_value_type field value = ([], .ok (.str value))) ∧
    (get_value_type field (pstr "007") = ([], .ok (.str (pstr "007"))) ∧
     get_value_type field (pstr "0.5") = ([], .ok (.float (1 / 2))) ∧
     get_value_type field (pstr "42") = ([], .ok (.int 42))) := by
  refine ⟨?_, ?_, ?_, ?_, ?_, ?_, ?_, ?_⟩
  · intro hv
    subst hv
    exact ⟨rfl, by decide⟩
  · intro q hv hdot hq
    rw [get_value_type_generic field value h1 h2 h3 hv]
    unfold inferGeneric
    rw [if_pos hdot, hq]
  · intro hv hnf hlen h0
    rw [get_value_type_generic field value h1 h2 h3 hv]
    unfold inferGeneric
    by_cases hdot : '.' ∈ value
    · have hq : pyFloatParse value = none := by
        rcases hq : pyFloatParse value with _ | q
        · rfl
        · exact absurd ⟨hdot, by rw [hq]; rfl⟩ hnf
      rw [if_pos hdot, hq]
    · rw [if_neg hdot, if_pos ⟨hlen, h0⟩]
  · intro n hv hnf hn0 hint
    rw [get_value_type_generic field value h1 h2 h3 hv]
    unfold inferGeneric
    have hdot : ¬ ('.' ∈ value) := by
      intro hdot
      rw [pyIntParse_dot_none hdot] at hint
      cases hint
    rw [if_neg hdot, if_neg hn0, hint]
  · intro hv hnf hn0 hint
    rw [get_value_type_generic field value h1 h2 h3 hv]
    unfold inferGeneric
    by_cases hdot : '.' ∈ value
    · have hq : pyFloatParse value = none := by
        rcases hq : pyFloatParse value with _ | q
        · rfl
        · exact absurd ⟨hdot, by rw [hq]; rfl⟩ hnf
      rw [if_pos hdot, hq]
    · rw [if_neg hdot, if_neg hn0, hint]
  · rw [get_value_type_generic field (pstr "007") h1 h2 h3 (by decide)]
    rw [show inferGeneric (pstr "007") = .str (pstr "007") from by decide]
  · rw [get_value_type_generic field (pstr "0.5") h1 h2 h3 (by decide)]
    have hq : pyFloatParse (pstr "0.5") = some (1 / 2) := by
      simp +decide [pyFloatParse, floatMantissa, pyStrip, pstr, digGroup, digGroupGo,
        digGroupCountGo, digVal, pyWS, List.splitOn, List.splitOnP, List.splitOnP.go]
      norm_num
    rw [show inferGeneric (pstr "0.5") = .float (1 / 2) from by
      unfold inferGeneric
      rw [if_pos (by decide), hq]]
  · rw [get_value_type_generic field (pstr "42") h1 h2 h3 (by decide)]
    rw [show inferGeneric (pstr "42") = .int 42 from by decide]

/-- Witness for C4 at the field `"Station"` and concrete tokens from each
branch of the cascade. -/
theorem C4_get_value_type_generic_cascade_witness :
    get_value_type (pstr "Station") [] = ([], .ok Value.none) ∧
    get_value_type (pstr "Station") (pstr "10.33") = ([], .ok (.float (1033 / 100))) ∧
    get_value_type (pstr "Station") (pstr "007") = ([], .ok (.str (pstr "007"))) ∧
    get_value_type (pstr "Station") (pstr "-42") = ([], .ok (.int (-42))) ∧
    get_value_type (pstr "Station") (pstr "Hilo") = ([], .ok (.str (pstr "Hilo"))) := by
  have h := C4_get_value_type_generic_cascade (pstr "Station")
  refine ⟨?_, ?_, ?_, ?_, ?_⟩
  · exact ((h [] (by decide) (by decide) (by decide)).1 rfl).1
  · refine (h (pstr "10.33") (by decide) (by decide) (by decide)).2.1 (1033 / 100)
      (by decide) (by decide) ?_
    simp +decide [pyFloatParse, floatMantissa, pyStrip, pstr, digGroup, digGroupGo,
      digGroupCountGo, digVal, pyWS, List.splitOn, List.splitOnP, List.splitOnP.go]
    norm_num
  · exact (h (pstr "007") (by decide) (by decide) (by decide)).2.2.1
      (by decide) (by decide) (by decide) (by decide)
  · exact (h (pstr "-42") (by decide) (by decide) (by decide)).2.2.2.1 (-42)
      (by decide) (by decide) (by decide) (by decide)
  · exact (h (pstr "Hilo") (by decide) (by decide) (by decide)).2.2.2.2.1
      (by decide) (by decide) (by decide) (by decide)

/-! ## String lemmas for the launch-time branch -/

theorem isPrefixOf_self_append : ∀ (p t : PyStr), p.isPrefixOf (p ++ t) = true
  | [], _ => List.isPrefixOf_nil_left
  | c :: p', t => by
      show (c == c && p'.isPrefixOf (p' ++ t)) = true
      rw [beq_self_eq_true, isPrefixOf_self_append p' t]
      rfl

theorem isPrefixOf_self : ∀ (p : PyStr), p.isPrefixOf p = true := by
  intro p
  have := isPrefixOf_self_append p []
  rwa [List.append_nil] at this

theorem isPrefixOf_eq_false_of_head_ne {g c : Char} {p s : PyStr} (h : c ≠ g) :
    (g :: p).isPrefixOf (c :: s) = false := by
  show (g == c && p.isPrefixOf s) = false
  rw [beq_eq_false_iff_ne.2 (fun hgc => h hgc.symm)]
  rfl

theorem containsSub_eq_false_of_head_not_mem {g : Char} {p : PyStr} :
    ∀ {s : PyStr}, g ∉ s → containsSub (g :: p) s = false
  | [], _ => rfl
  | c :: cs, h => by
      unfold containsSub
      rw [isPrefixOf_eq_false_of_head_ne (fun hc => h (List.mem_cons.2 (Or.inl hc.symm))),
        containsSub_eq_false_of_head_not_mem (fun hg => h (List.mem_cons_of_mem c hg))]
      rfl

theorem containsSub_append_self : ∀ (x pat : PyStr), containsSub pat (x ++ pat) = true
  | [], [] => rfl
  | [], c :: p' => by
      rw [List.nil_append]
      show ((c :: p' : PyStr).isPrefixOf (c :: p') || containsSub (c :: p') p') = true
      rw [isPrefixOf_self]
      rfl
  | c :: x', pat => by
      rw [List.cons_append]
      show (pat.isPrefixOf (c :: (x' ++ pat)) || containsSub pat (x' ++ pat)) = true
      rw [containsSub_append_self x' pat, Bool.or_true]

theorem replaceSubFuel_nil (pat repl : PyStr) : ∀ fuel, replaceSubFuel pat repl fuel [] = []
  | 0 => rfl
  | _ + 1 => rfl

theorem replaceSubFuel_id_of_head_not_mem {g : Char} {p repl : PyStr} :
    ∀ (fuel : Nat) (s : PyStr), g ∉ s → replaceSubFuel (g :: p) repl fuel s = s
  | fuel, [], _ => replaceSubFuel_nil _ _ fuel
  | 0, c :: cs, _ => rfl
  | fuel + 1, c :: cs, h => by
      unfold replaceSubFuel
      rw [if_neg]
      · rw [replaceSubFuel_id_of_head_not_mem fuel cs (fun hg => h (List.mem_cons_of_mem c hg))]
      · intro hcond
        have h2 := hcond.2
        rw [isPrefixOf_eq_false_of_head_ne
          (fun hc => h (List.mem_cons.2 (Or.inl hc.symm)))] at h2
        cases h2

theorem replaceSub_id_of_head_not_mem {g : Char} {p repl s : PyStr} (h : g ∉ s) :
    replaceSub (g :: p) repl s = s :=
  replaceSubFuel_id_of_head_not_mem s.length s h

theorem replaceSubFuel_drop_suffix {g : Char} {p : PyStr} :
    ∀ (fuel : Nat) (x : PyStr), g ∉ x → x.length + (g :: p).length ≤ fuel →
      replaceSubFuel (g :: p) [] fuel (x ++ (g :: p)) = x
  | 0, x, _, hf => by
      exfalso
      simp only [List.length_cons] at hf
      omega
  | fuel + 1, [], _, _ => by
      rw [List.nil_append]
      show replaceSubFuel (g :: p) [] (fuel + 1) (g :: p) = []
      unfold replaceSubFuel
      rw [if_pos ⟨List.cons_ne_nil g p, by
        have := isPrefixOf_self (g :: p)
        exact this⟩]
      rw [show ((g :: p : PyStr).drop (g :: p).length) = [] from List.drop_length _]
      rw [replaceSubFuel_nil]
      rfl
  | fuel + 1, c :: x', hx, hf => by
      rw [List.cons_append]
      unfold replaceSubFuel
      rw [if_neg]
      · rw [replaceSubFuel_drop_suffix fuel x'
          (fun hg => hx (List.mem_cons_of_mem c hg))
          (by simp only [List.length_cons] at hf ⊢; omega)]
      · intro hcond
        have h2 := hcond.2
        rw [isPrefixOf_eq_false_of_head_ne
          (fun hc => hx (List.mem_cons.2 (Or.inl hc.symm)))] at h2
        cases h2

theorem replaceSub_drop_suffix {g : Char} {p x : PyStr} (h : g ∉ x) :
    replaceSub (g :: p) [] (x ++ (g :: p)) = x :=
  replaceSubFuel_drop_suffix (x ++ (g :: p)).length x h (by simp)

theorem notColon_of_not_mem {a : PyStr} (ha : ':' ∉ a) :
    ∀ x ∈ a, ¬ ((x == ':') = true) := by
  intro x hx
  simp only [beq_iff_eq]
  exact fun h => ha (h ▸ hx)

theorem splitOn_sep_two {a b : PyStr} (ha : ':' ∉ a) (hb : ':' ∉ b) :
    (a ++ ':' :: b).splitOn ':' = [a, b] := by
  unfold List.splitOn
  rw [List.splitOnP_first (fun x => x == ':') a (notColon_of_not_mem ha) ':' (by simp)]
  rw [List.splitOnP_eq_single (fun x => x == ':') b (notColon_of_not_mem hb)]

theorem splitOn_sep_three {a b c : PyStr} (ha : ':' ∉ a) (hb : ':' ∉ b) (hc : ':' ∉ c) :
    (a ++ ':' :: (b ++ ':' :: c)).splitOn ':' = [a, b, c] := by
  unfold List.splitOn
  rw [List.splitOnP_first (fun x => x == ':') a (notColon_of_not_mem ha) ':' (by simp)]
  rw [List.splitOnP_first (fun x => x == ':') b (notColon_of_not_mem hb) ':' (by simp)]
  rw [List.splitOnP_eq_single (fun x => x == ':') c (notColon_of_not_mem hc)]

/-- For a nonempty token, `_get_value_type` on the field
`'Launch Time (UT)'` runs the launch-time branch. -/
theorem get_value_type_launch (value : PyStr) (hv : value ≠ []) :
    get_value_type (pstr "Launch Time (UT)") value = launchTimeParse value := by
  unfold get_value_type
  rw [if_neg hv, if_neg (by decide), if_neg (by decide), if_pos (by decide)]

/-- **C6.** For the field `'Launch Time (UT)'`: `"23:18:37"` yields the
time 23h18m37s; a token with only an hours:minutes pair yields that time
with 0 seconds and a warning; a token with a trailing `"GMT"` marker has
it stripped and still parses successfully with a warning rather than an
error; and a nonempty token with no `':'` is rejected with the
format-error kind. -/
theorem C6_launch_time_parsing :
    (get_value_type (pstr "Launch Time (UT)") (pstr "23:18:37") =
      ([], .ok (.time 23 18 37 0))) ∧
    (∀ (a b : PyStr) (h m : Int),
      (∀ c ∈ a, '0' ≤ c ∧ c ≤ '9') → (∀ c ∈ b, '0' ≤ c ∧ c ≤ '9') →
      pyIntParse a = some h → pyIntParse b = some m →
      0 ≤ h ∧ h < 24 → 0 ≤ m ∧ m < 60 →
      get_value_type (pstr "Launch Time (UT)") (a ++ ':' :: b) =
        (["Launch time has no seconds"], .ok (.time h.toNat m.toNat 0 0))) ∧
    (∀ (a b c : PyStr) (h m s : Int),
      (∀ x ∈ a, '0' ≤ x ∧ x ≤ '9') → (∀ x ∈ b, '0' ≤ x ∧ x ≤ '9') →
      (∀ x ∈ c, '0' ≤ x ∧ x ≤ '9') →
      pyIntParse a = some h → pyIntParse b = some m → pyIntParse c = some s →
      0 ≤ h ∧ h < 24 → 0 ≤ m ∧ m < 60 → 0 ≤ s ∧ s < 60 →
      get_value_type (pstr "Launch Time (UT)") ((a ++ ':' :: (b ++ ':' :: c)) ++ pstr "GMT") =
        (["Launch time seconds has GMT timezone"], .ok (.time h.toNat m.toNat s.toNat 0))) ∧
    (∀ value : PyStr, value ≠ [] → ':' ∉ value →
      get_value_type (pstr "Launch Time (UT)") value =
        ([], .error (.invalidData "Bad Launch time"))) := by
  refine ⟨?_, ?_, ?_, ?_⟩
  · rw [get_value_type_launch _ (by decide)]
    rfl
  · intro a b h m hda hdb hpa hpb hh hm
    have hGa : 'G' ∉ a := fun hc => absurd (hda _ hc) (by decide)
    have hGb : 'G' ∉ b := fun hc => absurd (hdb _ hc) (by decide)
    have hCa : ':' ∉ a := fun hc => absurd (hda _ hc) (by decide)
    have hCb : ':' ∉ b := fun hc => absurd (hdb _ hc) (by decide)
    have hG : 'G' ∉ (a ++ ':' :: b) := by
      intro hg
      rcases List.mem_append.1 hg with h1 | h1
      · exact hGa h1
      · rcases List.mem_cons.1 h1 with h2 | h2
        · cases h2
        · exact hGb h2
    have hrep : replaceSub (pstr "GMT") [] (a ++ ':' :: b) = a ++ ':' :: b :=
      replaceSub_id_of_head_not_mem hG
    have hcolon : ':' ∈ a ++ ':' :: b := List.mem_append.2 (Or.inr (List.mem_cons_self _ _))
    have hgmtF : containsSub (pstr "GMT") (a ++ ':' :: b) = false :=
      containsSub_eq_false_of_head_not_mem hG
    have hsplit : (a ++ ':' :: b).splitOn ':' = [a, b] := splitOn_sep_two hCa hCb
    rw [get_value_type_launch _ (by simp)]
    unfold launchTimeParse
    rw [if_neg (not_not_intro hcolon)]
    simp only [hgmtF, hrep, hsplit, List.map_cons, List.map_nil, hpa, hpb,
      Bool.false_eq_true, if_false, List.all_cons, List.all_nil, Option.isSome_some,
      Bool.and_true, Bool.and_self, if_true, Option.getD_some]
    rw [show mkTime h m 0 0 = .ok (.time h.toNat m.toNat 0 0) from by
      unfold mkTime
      rw [if_pos ⟨hh.1, hh.2, hm.1, hm.2, le_refl 0, by decide, le_refl 0, by decide⟩]
      rfl]
    simp
  · intro a b c h m s hda hdb hdc hpa hpb hpc hh hm hs
    have hGa : 'G' ∉ a := fun hc => absurd (hda _ hc) (by decide)
    have hGb : 'G' ∉ b := fun hc => absurd (hdb _ hc) (by decide)
    have hGc : 'G' ∉ c := fun hc => absurd (hdc _ hc) (by decide)
    have hCa : ':' ∉ a := fun hc => absurd (hda _ hc) (by decide)
    have hCb : ':' ∉ b := fun hc => absurd (hdb _ hc) (by decide)
    have hCc : ':' ∉ c := fun hc => absurd (hdc _ hc) (by decide)
    have hG : 'G' ∉ (a ++ ':' :: (b ++ ':' :: c)) := by
      intro hg
      rcases List.mem_append.1 hg with h1 | h1
      · exact hGa h1
      · rcases List.mem_cons.1 h1 with h2 | h2
        · cases h2
        · rcases List.mem_append.1 h2 with h3 | h3
          · exact hGb h3
          · rcases List.mem_cons.1 h3 with h4 | h4
            · cases h4
            · exact hGc h4
    have hrep : replaceSub (pstr "GMT") []
        ((a ++ ':' :: (b ++ ':' :: c)) ++ pstr "GMT") = a ++ ':' :: (b ++ ':' :: c) :=
      replaceSub_drop_suffix hG
    have hcolon : ':' ∈ (a ++ ':' :: (b ++ ':' :: c)) ++ pstr "GMT" :=
      List.mem_append.2 (Or.inl (List.mem_append.2 (Or.inr (List.mem_cons_self _ _))))
    have hgmtT : containsSub (pstr "GMT") ((a ++ ':' :: (b ++ ':' :: c)) ++ pstr "GMT") = true :=
      containsSub_append_self _ _
    have hsplit : (a ++ ':' :: (b ++ ':' :: c)).splitOn ':' = [a, b, c] :=
      splitOn_sep_three hCa hCb hCc
    rw [get_value_type_launch _ (by simp [pstr])]
    unfold launchTimeParse
    rw [if_neg (not_not_intro hcolon)]
    simp only [hgmtT, hrep, hsplit, List.map_cons, List.map_nil, hpa, hpb, hpc,
      if_true, List.all_cons, List.all_nil, Option.isSome_some,
      Bool.and_true, Bool.and_self, Option.getD_some]
    rw [show mkTime h m s 0 = .ok (.time h.toNat m.toNat s.toNat 0) from by
      unfold mkTime
      rw [if_pos ⟨hh.1, hh.2, hm.1, hm.2, hs.1, hs.2, le_refl 0, by decide⟩]
      rfl]
  · intro value hv hcolon
    rw [get_value_type_launch _ hv]
    unfold launchTimeParse
    rw [if_pos hcolon]

/-- Witness for C6 at concrete tokens: `"23:18"`, `"23:18:37GMT"` and the
colon-free `"1830"`. -/
theorem C6_launch_time_parsing_witness :
    get_value_type (pstr "Launch Time (UT)") (pstr "23:18") =
      (["Launch time has no seconds"], .ok (.time 23 18 0 0)) ∧
    get_value_type (pstr "Launch Time (UT)") (pstr "23:18:37GMT") =
      (["Launch time seconds has GMT timezone"], .ok (.time 23 18 37 0)) ∧
    get_value_type (pstr "Launch Time (UT)") (pstr "1830") =
      ([], .error (.invalidData "Bad Launch time")) := by
  refine ⟨?_, ?_, ?_⟩
  · have := C6_launch_time_parsing.2.1 (pstr "23") (pstr "18") 23 18
      (by decide) (by decide) (by decide) (by decide) (by decide) (by decide)
    simpa using this
  · have := C6_launch_time_parsing.2.2.1 (pstr "23") (pstr "18") (pstr "37") 23 18 37
      (by decide) (by decide) (by decide) (by decide) (by decide) (by decide)
      (by decide) (by decide) (by decide)
    simpa using this
  · exact C6_launch_time_parsing.2.2.2 (pstr "1830") (by decide) (by decide)

/-! ## Claim theorems: metadata-line error handling -/

/-- **C2, counterexample.**  The claim says a metadata line without a
`': '` separator stores an absent value under the best-effort key *for
that line* and parsing always continues.  In fact the stale loop
variable `key` is reused: when the very first metadata line lacks the
separator the parse crashes with an `UnboundLocalError`, and otherwise
the absent value is stored under the *previous* line's key, overwriting
its value. -/
theorem C2_counterexample :
    loads (pstr "4\nNoSeparator SHADOZ Version\nA  B\nu  v") =
      ([], .error .nameError) ∧
    parseMetaLines [pstr "Station: Hilo", pstr "no separator line"] Option.none [] [] =
      (["No value found for Station"], .ok [(pstr "Station", Value.none)]) :=
  ⟨rfl, rfl⟩

/-- **C2, amended.**  A metadata line lacking a `': '` separator logs a
`"No value found"` warning and stores `None` under the key of the most
recent line that had a separator (overwriting that key's value), and the
parse of the remaining lines continues; when there is no such previous
key — the first metadata line already lacks the separator — the parse
instead fails with an unbound-local-variable error. -/
theorem C2_metadata_line_without_separator (line : PyStr) (rest : List PyStr)
    (md : List (PyStr × Value)) (ws : List String)
    (hsplit : splitColonSpace line = Option.none) :
    (∀ k, parseMetaLines (line :: rest) (some k) md ws =
      parseMetaLines rest (some k) (odSet md k Value.none)
        (ws ++ ["No value found for " ++ String.mk k])) ∧
    parseMetaLines (line :: rest) Option.none md ws = (ws, .error .nameError) := by
  have hstep : ∀ lk, metaLineStep line lk =
      (match lk with
       | some k => .store k .none ["No value found for " ++ String.mk k]
       | Option.none => .err [] .nameError) := by
    intro lk
    unfold metaLineStep
    rw [hsplit]
  constructor
  · intro k
    simp only [parseMetaLines, hstep]
  · simp only [parseMetaLines, hstep, List.append_nil]

/-- Witness for the amended C2 at a concrete separator-less line. -/
theorem C2_metadata_line_without_separator_witness :
    parseMetaLines [pstr "bad line"] (some (pstr "Station"))
        [(pstr "Station", .str (pstr "Hilo"))] [] =
      parseMetaLines [] (some (pstr "Station"))
        (odSet [(pstr "Station", .str (pstr "Hilo"))] (pstr "Station") Value.none)
        ([] ++ ["No value found for " ++ String.mk (pstr "Station")]) ∧
    parseMetaLines [pstr "bad line"] Option.none [] [] = ([], .error .nameError) :=
  ⟨(C2_metadata_line_without_separator (pstr "bad line") [] _ [] (by decide)).1 (pstr "Station"),
   (C2_metadata_line_without_separator (pstr "bad line") [] [] [] (by decide)).2⟩

/-! ## Stage lemmas for the parser's error paths -/

/-- Format sniff failure: no line contains the `'SHADOZ Version'` marker. -/
theorem parseSHADOZ_sniff_fail (filelines : List PyStr) (version : Int)
    (h : filelines.any (fun s => containsSub (pstr "SHADOZ Version") s) = false) :
    parseSHADOZ filelines version =
      ([], .error (.invalidData "Unable to detect SHADOZ format")) := by
  unfold parseSHADOZ
  rw [if_pos (by rw [h]; exact Bool.false_ne_true)]

/-- Header-count failure: the first line is not a Python int. -/
theorem parseSHADOZ_count_fail (filelines : List PyStr) (version : Int)
    (hs : filelines.any (fun s => containsSub (pstr "SHADOZ Version") s) = true)
    (h : pyIntParse (filelines.headD []) = Option.none) :
    parseSHADOZ filelines version =
      ([], .error (.invalidData "Invalid SHADOZ metadata lines value")) := by
  unfold parseSHADOZ
  rw [if_neg (by rw [hs]; exact fun hc => hc rfl), h]

/-- An exception in the metadata loop propagates out of the parser. -/
theorem parseSHADOZ_meta_glue (filelines : List PyStr) (version N : Int)
    (ws : List String) (e : PyErr)
    (hs : filelines.any (fun s => containsSub (pstr "SHADOZ Version") s) = true)
    (hn : pyIntParse (filelines.headD []) = some N)
    (hm : parseMetaLines (pySlice filelines 1 (N - 2)) Option.none [] [] = (ws, .error e)) :
    parseSHADOZ filelines version = (ws, .error e) := by
  unfold parseSHADOZ
  rw [if_neg (by rw [hs]; exact fun hc => hc rfl), hn]
  show parseAfterCount filelines version N = _
  unfold parseAfterCount
  rw [hm]

/-- An exception in the version check propagates out of the parser. -/
theorem parseSHADOZ_version_glue (filelines : List PyStr) (version N : Int)
    (ws : List String) (md : List (PyStr × Value)) (e : PyErr)
    (hs : filelines.any (fun s => containsSub (pstr "SHADOZ Version") s) = true)
    (hn : pyIntParse (filelines.headD []) = some N)
    (hm : parseMetaLines (pySlice filelines 1 (N - 2)) Option.none [] [] = (ws, .ok md))
    (hv : checkVersion md version = .error e) :
    parseSHADOZ filelines version = (ws, .error e) := by
  unfold parseSHADOZ
  rw [if_neg (by rw [hs]; exact fun hc => hc rfl), hn]
  show parseAfterCount filelines version N = _
  unfold parseAfterCount
  rw [hm]
  show parseAfterMeta filelines version N ws md = _
  unfold parseAfterMeta
  rw [hv]

/-- An exception in the column-header stage propagates out of the parser. -/
theorem parseSHADOZ_fields_glue (filelines : List PyStr) (version N : Int)
    (ws : List String) (md : List (PyStr × Value)) (q : ℚ) (e : PyErr)
    (hs : filelines.any (fun s => containsSub (pstr "SHADOZ Version") s) = true)
    (hn : pyIntParse (filelines.headD []) = some N)
    (hm : parseMetaLines (pySlice filelines 1 (N - 2)) Option.none [] [] = (ws, .ok md))
    (hv : checkVersion md version = .ok q)
    (hf : parseFieldsUnits filelines N = .error e) :
    parseSHADOZ filelines version = (ws, .error e) := by
  unfold parseSHADOZ
  rw [if_neg (by rw [hs]; exact fun hc => hc rfl), hn]
  show parseAfterCount filelines version N = _
  unfold parseAfterCount
  rw [hm]
  show parseAfterMeta filelines version N ws md = _
  unfold parseAfterMeta
  rw [hv]
  show parseAfterVersion filelines N ws md q = _
  unfold parseAfterVersion
  rw [hf]

/-- An exception in the data-row stage propagates out of the parser. -/
theorem parseSHADOZ_rows_glue (filelines : List PyStr) (version N : Int)
    (ws w2 : List String) (md : List (PyStr × Value)) (q : ℚ)
    (dfs dfus : List PyStr) (e : PyErr)
    (hs : filelines.any (fun s => containsSub (pstr "SHADOZ Version") s) = true)
    (hn : pyIntParse (filelines.headD []) = some N)
    (hm : parseMetaLines (pySlice filelines 1 (N - 2)) Option.none [] [] = (ws, .ok md))
    (hv : checkVersion md version = .ok q)
    (hf : parseFieldsUnits filelines N = .ok (dfs, dfus))
    (hr : parseDataRows dfs.length (pySliceFrom filelines N) [] = (w2, .error e)) :
    parseSHADOZ filelines version = (ws ++ w2, .error e) := by
  unfold parseSHADOZ
  rw [if_neg (by rw [hs]; exact fun hc => hc rfl), hn]
  show parseAfterCount filelines version N = _
  unfold parseAfterCount
  rw [hm]
  show parseAfterMeta filelines version N ws md = _
  unfold parseAfterMeta
  rw [hv]
  show parseAfterVersion filelines N ws md q = _
  unfold parseAfterVersion
  rw [hf]
  show parseAfterFields filelines N ws md q dfs dfus = _
  unfold parseAfterFields
  rw [hr]

/-- Version-check outcomes as functions of the stored metadata value. -/
theorem checkVersion_cases (md : List (PyStr × Value)) (version : Int) :
    (odGet md (pstr "SHADOZ Version") = Option.none →
      checkVersion md version = .error .keyError) ∧
    (∀ v q, odGet md (pstr "SHADOZ Version") = some v →
      resolveVersionValue v = .ok q → pyIntOfFloat q ≠ version →
      checkVersion md version = .error (.invalidData "Invalid SHADOZ version")) ∧
    (∀ v q, odGet md (pstr "SHADOZ Version") = some v →
      resolveVersionValue v = .ok q → pyIntOfFloat q = version →
      checkVersion md version = .ok q) ∧
    (∀ v e, odGet md (pstr "SHADOZ Version") = some v →
      resolveVersionValue v = .error e → checkVersion md version = .error e) := by
  refine ⟨?_, ?_, ?_, ?_⟩
  · intro h
    unfold checkVersion
    rw [h]
  · intro v q hget hres hne
    unfold checkVersion
    rw [hget]
    show (match resolveVersionValue v with
          | Except.error e => Except.error e
          | Except.ok q =>
              if pyIntOfFloat q ≠ version then
                Except.error (PyErr.invalidData "Invalid SHADOZ version")
              else Except.ok q) = _
    rw [hres]
    exact if_pos hne
  · intro v q hget hres heq
    unfold checkVersion
    rw [hget]
    show (match resolveVersionValue v with
          | Except.error e => Except.error e
          | Except.ok q =>
              if pyIntOfFloat q ≠ version then
                Except.error (PyErr.invalidData "Invalid SHADOZ version")
              else Except.ok q) = _
    rw [hres]
    exact if_neg (by rw [heq]; exact fun hc => hc rfl)
  · intro v e hget hres
    unfold checkVersion
    rw [hget]
    show (match resolveVersionValue v with
          | Except.error e => Except.error e
          | Except.ok q =>
              if pyIntOfFloat q ≠ version then
                Except.error (PyErr.invalidData "Invalid SHADOZ version")
              else Except.ok q) = _
    rw [hres]

/-- Resolution of the raw version value: numeric values are used
directly; a string is resolved through `float()` of its first
whitespace-delimited token; `None` raises `TypeError`. -/
theorem resolveVersionValue_cases :
    (∀ q : ℚ, resolveVersionValue (.float q) = .ok q) ∧
    (∀ n : Int, resolveVersionValue (.int n) = .ok (n : ℚ)) ∧
    (resolveVersionValue Value.none = .error .typeError) ∧
    (∀ s tok rest, splitWsTokens s = tok :: rest →
      resolveVersionValue (.str s) =
        (match pyFloatParse tok with
         | some q => .ok q
         | Option.none => .error .valueError)) := by
  refine ⟨fun q => rfl, fun n => rfl, rfl, ?_⟩
  intro s tok rest hsplit
  unfold resolveVersionValue
  show (match (splitWsTokens s).head? with
        | some tok =>
          match pyFloatParse tok with
          | some q => Except.ok q
          | Option.none => Except.error PyErr.valueError
        | Option.none => Except.error PyErr.indexError) = _
  rw [hsplit]
  rfl

/-- Line mismatch in the column headers (stage lemma). -/
theorem parseFieldsUnits_mismatch (filelines : List PyStr) (N : Int) (fl ul : PyStr)
    (hfl : pyListGet filelines (N - 2) = .ok fl)
    (hul : pyListGet filelines (N - 1) = .ok ul)
    (hne : ((splitWs2 (pyStrip fl)).map pyStrip).length ≠
      ((splitWs2 (pyStrip ul)).map pyStrip).length) :
    parseFieldsUnits filelines N =
      .error (.invalidData "Number of fields not equal to number of field units") := by
  unfold parseFieldsUnits
  rw [hfl, hul]
  simp only [Except.bind, bind]
  rw [if_pos hne]

/-- Success of the column-header stage (stage lemma). -/
theorem parseFieldsUnits_ok (filelines : List PyStr) (N : Int) (fl ul : PyStr)
    (hfl : pyListGet filelines (N - 2) = .ok fl)
    (hul : pyListGet filelines (N - 1) = .ok ul)
    (heq : ((splitWs2 (pyStrip fl)).map pyStrip).length =
      ((splitWs2 (pyStrip ul)).map pyStrip).length) :
    parseFieldsUnits filelines N =
      .ok ((splitWs2 (pyStrip fl)).map pyStrip, (splitWs2 (pyStrip ul)).map pyStrip) := by
  unfold parseFieldsUnits
  rw [hfl, hul]
  simp only [Except.bind, bind]
  rw [if_neg (by rw [heq]; exact fun hc => hc rfl)]

/-- Row-length mismatch in the data-row stage (stage lemma). -/
theorem parseDataRows_mismatch (n : Nat) (dl : PyStr) (rest : List PyStr)
    (ws w2 : List String) (row : List Value)
    (hmap : mapTokens (splitWsTokens (pyStrip dl)) = (w2, .ok row))
    (hne : row.length ≠ n) :
    parseDataRows n (dl :: rest) ws =
      (ws ++ w2, .error (.invalidData "Data length not equal to number of fields")) := by
  unfold parseDataRows
  rw [hmap]
  exact if_pos hne

/-- A nonempty colon-free token for a `'launch time (ut)'`-keyed metadata
line makes the metadata stage raise `InvalidDataError` (stage lemma). -/
theorem parseMetaLines_launch_no_colon (line : PyStr) (rest : List PyStr)
    (lk : Option PyStr) (md : List (PyStr × Value)) (ws : List String)
    (k0 v0 : PyStr)
    (hsplit : splitColonSpace line = some (k0, v0))
    (hlow : pyLower (pyStrip k0) = pstr "launch time (ut)")
    (hv : pyStrip v0 ≠ [])
    (hcolon : ':' ∉ pyStrip v0) :
    parseMetaLines (line :: rest) lk md ws =
      (ws, .error (.invalidData "Bad Launch time")) := by
  have hgvt : get_value_type (pyStrip k0) (pyStrip v0) =
      ([], .error (.invalidData "Bad Launch time")) := by
    unfold get_value_type
    rw [if_neg hv, if_neg (by rw [hlow]; decide), if_neg (by rw [hlow]; decide),
      if_pos hlow]
    unfold launchTimeParse
    rw [if_pos hcolon]
  have hstep : metaLineStep line lk = .err [] (.invalidData "Bad Launch time") := by
    unfold metaLineStep
    rw [hsplit]
    show (match get_value_type (pyStrip k0) (pyStrip v0) with
          | (w2, Except.ok v) => MetaStep.store (pyStrip k0) v w2
          | (w2, Except.error e) =>
              if e = PyErr.valueError then
                MetaStep.store (pyStrip k0) Value.none
                  (w2 ++ ["No value found for " ++ String.mk (pyStrip k0)])
              else MetaStep.err w2 e) = _
    rw [hgvt]
    rfl
  simp only [parseMetaLines, hstep, List.append_nil]

/-! ## Claim theorems: version checking and parser error kinds -/

/-- **C5, counterexample.**  The claim says parsing fails with the format
error when the `'SHADOZ Version'` entry is absent.  On a file whose
marker line carries a different key, the metadata lookup
`self.metadata['SHADOZ Version']` instead raises a bare `KeyError`. -/
theorem C5_counterexample :
    loads (pstr "4\nKey Of SHADOZ Version: 1\nA  B\nu  v") =
      ([], .error .keyError) := rfl

/-- **C5, amended.**  A truncated-major-version mismatch against the
caller-supplied expected version raises the format error; a string
version value is resolved by `float()` of its leading
whitespace-delimited token and a numeric value is used directly; but an
absent `'SHADOZ Version'` entry raises `KeyError`, a `None`-valued entry
raises `TypeError`, and an unparsable string raises `ValueError` — not
the format error. -/
theorem C5_version_resolution :
    (∀ (md : List (PyStr × Value)) (version : Int) (v : Value) (q : ℚ),
      odGet md (pstr "SHADOZ Version") = some v → resolveVersionValue v = .ok q →
      pyIntOfFloat q ≠ version →
      checkVersion md version = .error (.invalidData "Invalid SHADOZ version")) ∧
    (∀ q : ℚ, resolveVersionValue (.float q) = .ok q) ∧
    (∀ n : Int, resolveVersionValue (.int n) = .ok (n : ℚ)) ∧
    (∀ (s tok : PyStr) (rest : List PyStr), splitWsTokens s = tok :: rest →
      resolveVersionValue (.str s) =
        (match pyFloatParse tok with
         | some q => .ok q
         | Option.none => .error .valueError)) ∧
    (∀ (md : List (PyStr × Value)) (version : Int),
      odGet md (pstr "SHADOZ Version") = Option.none →
      checkVersion md version = .error .keyError) ∧
    (∀ (md : List (PyStr × Value)) (version : Int),
      odGet md (pstr "SHADOZ Version") = some Value.none →
      checkVersion md version = .error .typeError) ∧
    (∀ (filelines : List PyStr) (version N : Int) (ws : List String)
        (md : List (PyStr × Value)) (e : PyErr),
      filelines.any (fun s => containsSub (pstr "SHADOZ Version") s) = true →
      pyIntParse (filelines.headD []) = some N →
      parseMetaLines (pySlice filelines 1 (N - 2)) Option.none [] [] = (ws, .ok md) →
      checkVersion md version = .error e →
      parseSHADOZ filelines version = (ws, .error e)) := by
  refine ⟨?_, resolveVersionValue_cases.1, resolveVersionValue_cases.2.1,
    resolveVersionValue_cases.2.2.2, ?_, ?_, ?_⟩
  · intro md version v q hget hres hne
    exact (checkVersion_cases md version).2.1 v q hget hres hne
  · intro md version hget
    exact (checkVersion_cases md version).1 hget
  · intro md version hget
    exact (checkVersion_cases md version).2.2.2 Value.none .typeError hget
      resolveVersionValue_cases.2.2.1
  · intro filelines version N ws md e hs hn hm hv
    exact parseSHADOZ_version_glue filelines version N ws md e hs hn hm hv

/-- Witness for the amended C5 at concrete inputs: version 4 against the
default 5 is the format error; an absent key, a `None` value and an
unparsable string give `KeyError`/`TypeError`/`ValueError`; an int and a
string resolve as claimed, and the error escapes `parseSHADOZ`. -/
theorem C5_version_resolution_witness :
    checkVersion [(pstr "SHADOZ Version", .int 4)] 5 =
      .error (.invalidData "Invalid SHADOZ version") ∧
    resolveVersionValue (.int 4) = .ok ((4 : Int) : ℚ) ∧
    resolveVersionValue (.str (pstr "abc")) = .error .valueError ∧
    checkVersion [] 5 = .error .keyError ∧
    checkVersion [(pstr "SHADOZ Version", Value.none)] 5 = .error .typeError ∧
    parseSHADOZ [pstr "4", pstr "SHADOZ Version: abc", pstr "A  B", pstr "u  v"] 5 =
      ([], .error .valueError) := by
  refine ⟨?_, ?_, ?_, ?_, ?_, ?_⟩
  · refine C5_version_resolution.1 _ 5 (.int 4) ((4 : Int) : ℚ) rfl
      (C5_version_resolution.2.2.1 4) ?_
    rw [show pyIntOfFloat ((4 : Int) : ℚ) = 4 from by
      unfold pyIntOfFloat
      rw [if_neg (by norm_num)]
      norm_num]
    decide
  · exact C5_version_resolution.2.2.1 4
  · rw [C5_version_resolution.2.2.2.1 (pstr "abc") (pstr "abc") [] (by decide)]
    rw [show pyFloatParse (pstr "abc") = Option.none from by decide]
  · exact C5_version_resolution.2.2.2.2.1 [] 5 rfl
  · exact C5_version_resolution.2.2.2.2.2.1 _ 5 rfl
  · refine C5_version_resolution.2.2.2.2.2.2 _ 5 4 [] _ .valueError (by decide) (by decide)
      rfl ?_
    refine (checkVersion_cases _ 5).2.2.2 (.str (pstr "abc")) .valueError rfl ?_
    rw [C5_version_resolution.2.2.2.1 (pstr "abc") (pstr "abc") [] (by decide)]
    rw [show pyFloatParse (pstr "abc") = Option.none from by decide]

/-- **C3, counterexample.**  The claim says every listed validation
failure — including an unresolvable version — raises `InvalidDataError`
and no other error kind escapes.  On a file whose `'SHADOZ Version'`
metadata line has an empty value, the stored value is `None` and
`float(None)` raises a bare `TypeError`, which escapes the parser. -/
theorem C3_counterexample :
    loads (pstr "4\nSHADOZ Version: \nA  B\nu  v") = ([], .error .typeError) := rfl

/-- **C3, amended.**  Each listed parser validation failure — missing
format marker, non-numeric header count, mismatched major version,
field/unit count mismatch, row length mismatch, malformed (colon-free)
launch-time token — raises `InvalidDataError`; but an *unresolvable*
version is the exception: an absent `'SHADOZ Version'` entry escapes as
`KeyError` and a `None`-valued one as `TypeError` (an unparsable string
as `ValueError`), and any such stage exception propagates out of the
parser unchanged. -/
theorem C3_error_kinds :
    (∀ (filelines : List PyStr) (version : Int),
      filelines.any (fun s => containsSub (pstr "SHADOZ Version") s) = false →
      parseSHADOZ filelines version =
        ([], .error (.invalidData "Unable to detect SHADOZ format"))) ∧
    (∀ (filelines : List PyStr) (version : Int),
      filelines.any (fun s => containsSub (pstr "SHADOZ Version") s) = true →
      pyIntParse (filelines.headD []) = Option.none →
      parseSHADOZ filelines version =
        ([], .error (.invalidData "Invalid SHADOZ metadata lines value"))) ∧
    (∀ (line : PyStr) (rest : List PyStr) (lk : Option PyStr)
        (md : List (PyStr × Value)) (ws : List String) (k0 v0 : PyStr),
      splitColonSpace line = some (k0, v0) →
      pyLower (pyStrip k0) = pstr "launch time (ut)" →
      pyStrip v0 ≠ [] → ':' ∉ pyStrip v0 →
      parseMetaLines (line :: rest) lk md ws =
        (ws, .error (.invalidData "Bad Launch time"))) ∧
    (∀ (filelines : List PyStr) (version N : Int) (ws : List String)
        (md : List (PyStr × Value)) (v : Value) (q : ℚ),
      filelines.any (fun s => containsSub (pstr "SHADOZ Version") s) = true →
      pyIntParse (filelines.headD []) = some N →
      parseMetaLines (pySlice filelines 1 (N - 2)) Option.none [] [] = (ws, .ok md) →
      odGet md (pstr "SHADOZ Version") = some v →
      resolveVersionValue v = .ok q → pyIntOfFloat q ≠ version →
      parseSHADOZ filelines version =
        (ws, .error (.invalidData "Invalid SHADOZ version"))) ∧
    (∀ (filelines : List PyStr) (N : Int) (fl ul : PyStr),
      pyListGet filelines (N - 2) = .ok fl →
      pyListGet filelines (N - 1) = .ok ul →
      ((splitWs2 (pyStrip fl)).map pyStrip).length ≠
        ((splitWs2 (pyStrip ul)).map pyStrip).length →
      parseFieldsUnits filelines N =
        .error (.invalidData "Number of fields not equal to number of field units")) ∧
    (∀ (n : Nat) (dl : PyStr) (rest : List PyStr) (ws w2 : List String)
        (row : List Value),
      mapTokens (splitWsTokens (pyStrip dl)) = (w2, .ok row) → row.length ≠ n →
      parseDataRows n (dl :: rest) ws =
        (ws ++ w2, .error (.invalidData "Data length not equal to number of fields"))) ∧
    (∀ (md : List (PyStr × Value)) (version : Int),
      (odGet md (pstr "SHADOZ Version") = Option.none →
        checkVersion md version = .error .keyError) ∧
      (odGet md (pstr "SHADOZ Version") = some Value.none →
        checkVersion md version = .error .typeError)) ∧
    (∀ (filelines : List PyStr) (version N : Int) (ws : List String)
        (md : List (PyStr × Value)) (q : ℚ) (dfs dfus : List PyStr) (e : PyErr),
      filelines.any (fun s => containsSub (pstr "SHADOZ Version") s) = true →
      pyIntParse (filelines.headD []) = some N →
      parseMetaLines (pySlice filelines 1 (N - 2)) Option.none [] [] = (ws, .ok md) →
      checkVersion md version = .ok q →
      parseFieldsUnits filelines N = .error e →
      parseSHADOZ filelines version = (ws, .error e)) ∧
    (∀ (filelines : List PyStr) (version N : Int) (ws w2 : List String)
        (md : List (PyStr × Value)) (q : ℚ) (dfs dfus : List PyStr) (e : PyErr),
      filelines.any (fun s => containsSub (pstr "SHADOZ Version") s) = true →
      pyIntParse (filelines.headD []) = some N →
      parseMetaLines (pySlice filelines 1 (N - 2)) Option.none [] [] = (ws, .ok md) →
      checkVersion md version = .ok q →
      parseFieldsUnits filelines N = .ok (dfs, dfus) →
      parseDataRows dfs.length (pySliceFrom filelines N) [] = (w2, .error e) →
      parseSHADOZ filelines version = (ws ++ w2, .error e)) := by
  refine ⟨parseSHADOZ_sniff_fail, parseSHADOZ_count_fail,
    parseMetaLines_launch_no_colon, ?_, parseFieldsUnits_mismatch,
    parseDataRows_mismatch, ?_, ?_, parseSHADOZ_rows_glue⟩
  · intro filelines version N ws md v q hs hn hm hget hres hne
    exact parseSHADOZ_version_glue filelines version N ws md _ hs hn hm
      ((checkVersion_cases md version).2.1 v q hget hres hne)
  · intro md version
    exact ⟨(checkVersion_cases md version).1,
      fun hget => (checkVersion_cases md version).2.2.2 Value.none .typeError hget
        resolveVersionValue_cases.2.2.1⟩
  · intro filelines version N ws md q dfs dfus e hs hn hm hv hf
    exact parseSHADOZ_fields_glue filelines version N ws md q e hs hn hm hv hf

/-- Witness for the amended C3 at concrete inputs exercising each listed
failure. -/
theorem C3_error_kinds_witness :
    parseSHADOZ [pstr "hello"] 5 =
      ([], .error (.invalidData "Unable to detect SHADOZ format")) ∧
    parseSHADOZ [pstr "not a number SHADOZ Version"] 5 =
      ([], .error (.invalidData "Invalid SHADOZ metadata lines value")) ∧
    parseMetaLines [pstr "Launch Time (UT): 1830"] Option.none [] [] =
      ([], .error (.invalidData "Bad Launch time")) ∧
    parseSHADOZ [pstr "4", pstr "SHADOZ Version: 4", pstr "A  B", pstr "u  v"] 5 =
      ([], .error (.invalidData "Invalid SHADOZ version")) ∧
    parseFieldsUnits [pstr "4", pstr "SHADOZ Version: 5", pstr "A  B", pstr "u"] 4 =
      .error (.invalidData "Number of fields not equal to number of field units") ∧
    parseDataRows 2 [pstr "1 2 3"] [] =
      ([], .error (.invalidData "Data length not equal to number of fields")) := by
  refine ⟨?_, ?_, ?_, ?_, ?_, ?_⟩
  · exact C3_error_kinds.1 _ 5 (by decide)
  · exact C3_error_kinds.2.1 _ 5 (by decide) (by decide)
  · exact C3_error_kinds.2.2.1 _ [] Option.none [] [] (pstr "Launch Time (UT)")
      (pstr "1830") (by decide) (by decide) (by decide) (by decide)
  · refine C3_error_kinds.2.2.2.1 _ 5 4 [] [(pstr "SHADOZ Version", .int 4)]
      (.int 4) ((4 : Int) : ℚ) (by decide) (by decide) rfl rfl rfl ?_
    rw [show pyIntOfFloat ((4 : Int) : ℚ) = 4 from by
      unfold pyIntOfFloat
      rw [if_neg (by norm_num)]
      norm_num]
    decide
  · exact C3_error_kinds.2.2.2.2.1 _ 4 (pstr "A  B") (pstr "u") rfl rfl (by decide)
  · exact C3_error_kinds.2.2.2.2.2.1 2 (pstr "1 2 3") [] [] [] [.int 1, .int 2, .int 3]
      rfl (by decide)

/-! ## The round-trip claim: definitions -/

deriving instance DecidableEq for Except

/-- Drop sub-second precision from a time value (the writer renders times
as `%H:%M:%S`); all other values are unchanged. -/
def truncSubSec : Value → Value
  | .time h mi s _ => .time h mi s 0
  | v => v

/-- The rendered metadata value (total companion of `renderMetaValue`). -/
def rendered (k : PyStr) (v : Value) : PyStr :=
  (renderMetaValue k v).toOption.getD []

/-- `s` survives `str.strip()` unchanged. -/
def stripStable (s : PyStr) : Prop := pyStrip s = s

/-- `s` contains no whitespace characters. -/
def wsFree (s : PyStr) : Prop := ∀ c ∈ s, pyWS c = false

/-- A metadata key that the writer/parser round-trips: nonempty,
strip-stable, free of an embedded `': '` separator and of newlines, and
not ending in `':'` (which would collide with the key padding). -/
def goodKey (k : PyStr) : Prop :=
  k ≠ [] ∧ stripStable k ∧ containsSub (pstr ": ") k = false ∧
  k.getLast? ≠ some ':' ∧ '\n' ∉ k

/-- A metadata pair that the writer/parser round-trips: the writer's
rendering succeeds, is a nonempty strip-stable newline-free text, and
re-inferring it under the same key recovers the value (modulo sub-second
time truncation). -/
def goodMetaPair (k : PyStr) (v : Value) : Prop :=
  renderMetaValue k v = .ok (rendered k v) ∧
  rendered k v ≠ [] ∧ stripStable (rendered k v) ∧ '\n' ∉ rendered k v ∧
  (get_value_type k (rendered k v)).2 = .ok (truncSubSec v)

/-- The stored (post-reparse) `'SHADOZ Version'` value resolves to a
float with truncated major version 5 (the default expected version). -/
def versionOK (d : SHADOZDoc) : Bool :=
  match odGet d.metadata (pstr "SHADOZ Version") with
  | some v =>
      match resolveVersionValue (truncSubSec v) with
      | .ok q => decide (pyIntOfFloat q = 5)
      | .error _ => false
  | Option.none => false

/-- A column-header token that the writer/parser round-trips: nonempty,
at most 9 characters (so the padded join leaves 2+ space separators),
whitespace-free. -/
def goodToken (f : PyStr) : Prop := f ≠ [] ∧ f.length ≤ 9 ∧ wsFree f

/-- A data value that the writer/parser round-trips: its `repr` is a
nonempty whitespace-free token whose generic re-inference recovers the
value exactly. -/
def goodDatum (x : Value) : Prop :=
  reprOfValue x ≠ [] ∧ wsFree (reprOfValue x) ∧
  (get_value_type (pstr "default") (reprOfValue x)).2 = .ok x

/-- The class of directly-built documents for which serialisation
followed by parsing recovers the document.  Everything the claim's bare
invariants do not guarantee is stated here explicitly: a version-bearing
metadata entry with major version 5, well-behaved keys and rendered
values, distinct keys, padded-join-compatible column tokens on which the
writer's `'      Time'`/`'      sec'` cosmetic replacements are no-ops,
and data values whose `repr` re-infers to themselves. -/
def RoundTripSafe (d : SHADOZDoc) : Prop :=
  d.metadata ≠ [] ∧
  (d.metadata.map Prod.fst).Nodup ∧
  (∀ p ∈ d.metadata, goodKey p.1 ∧ goodMetaPair p.1 p.2) ∧
  versionOK d = true ∧
  d.data_fields ≠ [] ∧
  d.data_fields.length = d.data_fields_units.length ∧
  (∀ f ∈ d.data_fields ++ d.data_fields_units, goodToken f) ∧
  replaceSub (pstr "      Time") (pstr "Time") (joinR d.data_fields) = joinR d.data_fields ∧
  replaceSub (pstr "      sec") (pstr "sec") (joinR d.data_fields_units) =
    joinR d.data_fields_units ∧
  (∀ row ∈ d.data, row.length = d.data_fields.length ∧ ∀ x ∈ row, goodDatum x)

/-! ## Decimal digit rendering round-trips through `int()` -/

theorem digitChar_digVal {k : Nat} (hk : k < 10) :
    digVal (Char.ofNat (48 + k)) = some k := by
  interval_cases k <;> decide

theorem digitChar_ne_underscore {k : Nat} (hk : k < 10) :
    Char.ofNat (48 + k) ≠ '_' := by
  interval_cases k <;> decide

theorem digitChar_bounds {k : Nat} (hk : k < 10) :
    '0' ≤ Char.ofNat (48 + k) ∧ Char.ofNat (48 + k) ≤ '9' := by
  interval_cases k <;> decide

theorem digit_not_ws {c : Char} (h0 : '0' ≤ c) (h9 : c ≤ '9') : pyWS c = false := by
  by_contra h
  rw [Bool.not_eq_false] at h
  simp only [pyWS, Bool.or_eq_true, decide_eq_true_eq] at h
  rcases h with ((((h | h) | h) | h) | h) | h <;>
    (subst h; exact absurd h0 (by decide))

theorem digit_ne_underscore {c : Char} (h0 : '0' ≤ c) (h9 : c ≤ '9') : c ≠ '_' := by
  intro h
  subst h
  exact absurd h9 (by decide)

theorem natDigitsGo_acc : ∀ (fuel n : Nat) (acc : PyStr),
    natDigitsGo fuel n acc = natDigitsGo fuel n [] ++ acc
  | 0, n, acc => rfl
  | fuel + 1, n, acc => by
      unfold natDigitsGo
      by_cases h : n < 10
      · rw [if_pos h, if_pos h]
        rfl
      · rw [if_neg h, if_neg h, natDigitsGo_acc fuel (n / 10),
          natDigitsGo_acc fuel (n / 10) [Char.ofNat (48 + n % 10)],
          List.append_assoc]
        rfl

theorem natDigitsGo_chars : ∀ (fuel n : Nat) (c : Char),
    c ∈ natDigitsGo fuel n [] → '0' ≤ c ∧ c ≤ '9'
  | 0, n, c, h => absurd h (List.not_mem_nil c)
  | fuel + 1, n, c, h => by
      unfold natDigitsGo at h
      by_cases hn : n < 10
      · rw [if_pos hn] at h
        rcases List.mem_cons.1 h with rfl | h2
        · exact digitChar_bounds hn
        · cases h2
      · rw [if_neg hn, natDigitsGo_acc] at h
        rcases List.mem_append.1 h with h2 | h2
        · exact natDigitsGo_chars fuel (n / 10) c h2
        · rcases List.mem_cons.1 h2 with rfl | h3
          · exact digitChar_bounds (Nat.mod_lt n (by decide))
          · cases h3

theorem natDigitsGo_ne_nil (fuel n : Nat) (hf : 1 ≤ fuel) :
    natDigitsGo fuel n [] ≠ [] := by
  match fuel, hf with
  | f + 1, _ =>
    unfold natDigitsGo
    by_cases hn : n < 10
    · rw [if_pos hn]
      exact List.cons_ne_nil _ _
    · rw [if_neg hn, natDigitsGo_acc]
      exact fun hc => absurd (List.append_eq_nil.1 hc).2 (List.cons_ne_nil _ _)

theorem natDigitsGo_succ (fuel n : Nat) (acc : PyStr) :
    natDigitsGo (fuel + 1) n acc =
      if n < 10 then Char.ofNat (48 + n) :: acc
      else natDigitsGo fuel (n / 10) (Char.ofNat (48 + n % 10) :: acc) := rfl

theorem digGroupGo_digit_step {k : Nat} (hk : k < 10) (a : Nat) (rest : PyStr) :
    digGroupGo a (Char.ofNat (48 + k) :: rest) = digGroupGo (10 * a + k) rest := by
  cases rest with
  | nil =>
      rw [digGroupGo.eq_2, if_neg (digitChar_ne_underscore hk), digitChar_digVal hk]
  | cons d ds =>
      rw [digGroupGo.eq_3, if_neg (digitChar_ne_underscore hk), digitChar_digVal hk]

theorem digGroupGo_natDigitsGo :
    ∀ (fuel n a : Nat) (rest : PyStr), n < 10 ^ fuel →
      digGroupGo a (natDigitsGo fuel n [] ++ rest) =
        digGroupGo (a * 10 ^ (natDigitsGo fuel n []).length + n) rest
  | 0, n, a, rest, hn => by
      have hn0 : n = 0 := Nat.lt_one_iff.1 (by simpa using hn)
      subst hn0
      show digGroupGo a rest = digGroupGo (a * 10 ^ 0 + 0) rest
      rw [pow_zero, Nat.mul_one, Nat.add_zero]
  | fuel + 1, n, a, rest, hn => by
      by_cases h10 : n < 10
      · have hd : natDigitsGo (fuel + 1) n [] = [Char.ofNat (48 + n)] := by
          rw [natDigitsGo_succ, if_pos h10]
        rw [hd]
        rw [show (([Char.ofNat (48 + n)] : PyStr) ++ rest) = Char.ofNat (48 + n) :: rest
          from rfl]
        rw [digGroupGo_digit_step h10]
        show digGroupGo (10 * a + n) rest = digGroupGo (a * 10 ^ 1 + n) rest
        rw [pow_one, Nat.mul_comm]
      · have hdiv : n / 10 < 10 ^ fuel := by
          rw [Nat.div_lt_iff_lt_mul (by decide : 0 < 10)]
          calc n < 10 ^ (fuel + 1) := hn
          _ = 10 ^ fuel * 10 := by rw [pow_succ]
        have hmod : n % 10 < 10 := Nat.mod_lt n (by decide)
        have hd : natDigitsGo (fuel + 1) n [] =
            natDigitsGo fuel (n / 10) [] ++ [Char.ofNat (48 + n % 10)] := by
          rw [natDigitsGo_succ, if_neg h10, natDigitsGo_acc]
        rw [hd, List.append_assoc]
        rw [digGroupGo_natDigitsGo fuel (n / 10) a _ hdiv]
        rw [show ([Char.ofNat (48 + n % 10)] ++ rest : PyStr) =
          Char.ofNat (48 + n % 10) :: rest from rfl]
        rw [digGroupGo_digit_step hmod]
        have hlen : (natDigitsGo fuel (n / 10) [] ++
            [Char.ofNat (48 + n % 10)]).length =
            (natDigitsGo fuel (n / 10) []).length + 1 := by
          rw [List.length_append, List.length_cons, List.length_nil]
        rw [hlen]
        have harith : 10 * (a * 10 ^ (natDigitsGo fuel (n / 10) []).length + n / 10) +
            n % 10 = a * 10 ^ ((natDigitsGo fuel (n / 10) []).length + 1) + n := by
          have h10n := Nat.div_add_mod n 10
          rw [pow_succ, ← Nat.mul_assoc]
          generalize a * 10 ^ (natDigitsGo fuel (n / 10) []).length = A
          omega
        rw [harith]

theorem natDigits_ne_nil (n : Nat) : natDigits n ≠ [] :=
  natDigitsGo_ne_nil (n + 1) n (Nat.succ_le_succ (Nat.zero_le n))

theorem natDigits_chars {n : Nat} {c : Char} (h : c ∈ natDigits n) :
    '0' ≤ c ∧ c ≤ '9' :=
  natDigitsGo_chars (n + 1) n c h

theorem n_lt_ten_pow (n : Nat) : n < 10 ^ (n + 1) := by
  calc n < 2 ^ n := Nat.lt_two_pow n
  _ ≤ 10 ^ n := Nat.pow_le_pow_left (by decide) n
  _ ≤ 10 ^ (n + 1) := Nat.pow_le_pow_right (by decide) (Nat.le_succ n)

theorem digGroup_natDigits (n : Nat) : digGroup (natDigits n) = some n := by
  rcases hnd : natDigits n with _ | ⟨c, cs⟩
  · exact absurd hnd (natDigits_ne_nil n)
  · have hc : '0' ≤ c ∧ c ≤ '9' := natDigits_chars (hnd ▸ List.mem_cons_self c cs)
    obtain ⟨k, hk⟩ : ∃ k, digVal c = some k :=
      ⟨c.toNat - 48, by unfold digVal; rw [if_pos hc]⟩
    have hgo : digGroupGo 0 (natDigits n ++ []) =
        digGroupGo (0 * 10 ^ (natDigits n).length + n) [] :=
      digGroupGo_natDigitsGo (n + 1) n 0 [] (n_lt_ten_pow n)
    rw [List.append_nil, Nat.zero_mul, Nat.zero_add, hnd] at hgo
    have h2 : digGroupGo 0 (c :: cs) = digGroupGo k cs := by
      cases cs with
      | nil =>
          rw [digGroupGo.eq_2, if_neg (digit_ne_underscore hc.1 hc.2), hk]
          show digGroupGo (10 * 0 + k) [] = _
          rw [show 10 * 0 + k = k from by omega]
      | cons d ds =>
          rw [digGroupGo.eq_3, if_neg (digit_ne_underscore hc.1 hc.2), hk]
          show digGroupGo (10 * 0 + k) (d :: ds) = _
          rw [show 10 * 0 + k = k from by omega]
    have h1 : digGroup (c :: cs) = digGroupGo k cs := by
      rw [digGroup.eq_2, hk]
    rw [h1, ← h2, hgo]
    rfl

theorem wsFree_natDigits (n : Nat) : wsFree (natDigits n) := fun c hc =>
  digit_not_ws (natDigits_chars hc).1 (natDigits_chars hc).2

theorem pyStrip_eq_self {s : PyStr} (h : wsFree s) : pyStrip s = s := by
  unfold pyStrip
  have h1 : s.dropWhile pyWS = s := by
    cases s with
    | nil => rfl
    | cons c cs => exact List.dropWhile_cons_of_neg (by rw [h c (List.mem_cons_self c cs)]; exact Bool.false_ne_true)
  rw [h1]
  have h2 : s.reverse.dropWhile pyWS = s.reverse := by
    rcases hr : s.reverse with _ | ⟨c, cs⟩
    · rfl
    · refine List.dropWhile_cons_of_neg ?_
      have hc : c ∈ s := by
        rw [← List.mem_reverse, hr]
        exact List.mem_cons_self c cs
      rw [h c hc]
      exact Bool.false_ne_true
  rw [h2, List.reverse_reverse]

theorem pyIntParse_natDigits (n : Nat) : pyIntParse (natDigits n) = some (n : Int) := by
  have hstrip : pyStrip (natDigits n) = natDigits n :=
    pyStrip_eq_self (wsFree_natDigits n)
  unfold pyIntParse
  rw [hstrip]
  rcases hnd : natDigits n with _ | ⟨c, cs⟩
  · exact absurd hnd (natDigits_ne_nil n)
  · have hc : '0' ≤ c ∧ c ≤ '9' := natDigits_chars (hnd ▸ List.mem_cons_self c cs)
    have hplus : c ≠ '+' := fun h => by
      subst h
      exact absurd hc.1 (by decide)
    have hminus : c ≠ '-' := fun h => by
      subst h
      exact absurd hc.1 (by decide)
    have hdg : digGroup (c :: cs) = some n := hnd ▸ digGroup_natDigits n
    match c, hplus, hminus with
    | c, hplus, hminus =>
      split
      next rest heq =>
        rw [List.cons.injEq] at heq
        exact absurd heq.1 hplus
      next rest heq =>
        rw [List.cons.injEq] at heq
        exact absurd heq.1 hminus
      next =>
        rw [hdg]
        rfl

/-! ## Stripping lemmas -/

theorem length_dropWhile_le (p : Char → Bool) : ∀ l : PyStr,
    (l.dropWhile p).length ≤ l.length
  | [] => le_refl 0
  | c :: cs => by
      by_cases h : p c
      · rw [List.dropWhile_cons_of_pos h]
        exact le_trans (length_dropWhile_le p cs) (by simp)
      · rw [List.dropWhile_cons_of_neg h]

theorem dropWhile_suffix (p : Char → Bool) : ∀ l : PyStr, l.dropWhile p <:+ l
  | [] => List.suffix_refl []
  | c :: cs => by
      by_cases h : p c
      · rw [List.dropWhile_cons_of_pos h]
        exact (dropWhile_suffix p cs).trans (List.suffix_cons c cs)
      · rw [List.dropWhile_cons_of_neg h]

theorem dropWhile_replicate_append {p : Char → Bool} {x : Char} (hx : p x = true) :
    ∀ (m : Nat) (l : PyStr), (List.replicate m x ++ l).dropWhile p = l.dropWhile p
  | 0, l => rfl
  | m + 1, l => by
      rw [List.replicate_succ, List.cons_append, List.dropWhile_cons_of_pos hx,
        dropWhile_replicate_append hx m l]

theorem stripStable_head {c : Char} {cs : PyStr} (h : stripStable (c :: cs)) :
    pyWS c = false := by
  by_contra hws
  rw [Bool.not_eq_false] at hws
  have hlen : (pyStrip (c :: cs)).length ≤ cs.length := by
    unfold pyStrip
    rw [List.dropWhile_cons_of_pos hws]
    calc ((cs.dropWhile pyWS).reverse.dropWhile pyWS).reverse.length
        = ((cs.dropWhile pyWS).reverse.dropWhile pyWS).length := List.length_reverse _
      _ ≤ (cs.dropWhile pyWS).reverse.length := length_dropWhile_le _ _
      _ = (cs.dropWhile pyWS).length := List.length_reverse _
      _ ≤ cs.length := length_dropWhile_le _ _
  rw [h] at hlen
  simp only [List.length_cons] at hlen
  omega

theorem stripStable_last {s : PyStr} {c : Char} (h : stripStable s)
    (hl : s.getLast? = some c) : pyWS c = false := by
  by_contra hws
  rw [Bool.not_eq_false] at hws
  have hsuf : s.dropWhile pyWS <:+ s := dropWhile_suffix pyWS s
  have hlen1 : (pyStrip s).length ≤ (s.dropWhile pyWS).length := by
    unfold pyStrip
    calc ((s.dropWhile pyWS).reverse.dropWhile pyWS).reverse.length
        = ((s.dropWhile pyWS).reverse.dropWhile pyWS).length := List.length_reverse _
      _ ≤ (s.dropWhile pyWS).reverse.length := length_dropWhile_le _ _
      _ = (s.dropWhile pyWS).length := List.length_reverse _
  have heqlen : (s.dropWhile pyWS).length = s.length := by
    have hlen2 : (s.dropWhile pyWS).length ≤ s.length := length_dropWhile_le _ _
    rw [h] at hlen1
    omega
  have ht : s.dropWhile pyWS = s := List.IsSuffix.eq_of_length hsuf heqlen
  have hrev : s.reverse.head? = some c := by
    rw [List.head?_reverse]
    exact hl
  rcases hr : s.reverse with _ | ⟨c', r'⟩
  · rw [hr] at hrev
    cases hrev
  · rw [hr] at hrev
    have hc' : c' = c := by simpa using hrev
    subst hc'
    have hps : (pyStrip s).length ≤ r'.length := by
      unfold pyStrip
      rw [ht, hr, List.dropWhile_cons_of_pos hws]
      calc (r'.dropWhile pyWS).reverse.length
          = (r'.dropWhile pyWS).length := List.length_reverse _
        _ ≤ r'.length := length_dropWhile_le _ _
    rw [h] at hps
    have hsl : s.length = r'.length + 1 := by
      have h2 := congrArg List.length hr
      simpa using h2
    omega

theorem dropWhile_reverse_eq_self {s : PyStr} (hs : stripStable s) :
    s.reverse.dropWhile pyWS = s.reverse := by
  rcases hr : s.reverse with _ | ⟨c', r'⟩
  · rfl
  · have hl : s.getLast? = some c' := by
      rw [← List.head?_reverse, hr]
      rfl
    have hc' : pyWS c' = false := stripStable_last hs hl
    exact List.dropWhile_cons_of_neg (by rw [hc']; exact Bool.false_ne_true)

theorem pyStrip_append_spaces {k : PyStr} (hk : stripStable k) (hne : k ≠ [])
    (m : Nat) : pyStrip (k ++ List.replicate m ' ') = k := by
  rcases k with _ | ⟨c, cs⟩
  · exact absurd rfl hne
  · have hc : pyWS c = false := stripStable_head hk
    unfold pyStrip
    rw [List.cons_append,
      List.dropWhile_cons_of_neg (by rw [hc]; exact Bool.false_ne_true)]
    rw [show (c :: (cs ++ List.replicate m ' ') : PyStr) =
      (c :: cs) ++ List.replicate m ' ' from rfl]
    rw [List.reverse_append, List.reverse_replicate,
      dropWhile_replicate_append (by decide) m, dropWhile_reverse_eq_self hk,
      List.reverse_reverse]

theorem pyStrip_stripFiveSpaces (l : PyStr) :
    pyStrip (stripFiveSpaces l) = pyStrip l := by
  unfold stripFiveSpaces
  by_cases h : (pstr "     ").isPrefixOf l = true
  · rw [if_pos h]
    rcases List.isPrefixOf_iff_prefix.1 h with ⟨t, ht⟩
    rw [← ht]
    rw [show ((pstr "     " : PyStr) ++ t).drop 5 = t from by
      rw [show (pstr "     " : PyStr) = List.replicate 5 ' ' from rfl]
      rw [List.drop_append_of_le_length (by simp)]
      simp]
    unfold pyStrip
    rw [show (pstr "     " : PyStr) = List.replicate 5 ' ' from rfl,
      dropWhile_replicate_append (by decide) 5 t]
  · rw [if_neg h]

theorem stripFiveSpaces_id {c : Char} {cs : PyStr} (hc : pyWS c = false) :
    stripFiveSpaces (c :: cs) = c :: cs := by
  unfold stripFiveSpaces
  rw [if_neg]
  intro h
  rw [show (pstr "     " : PyStr) = ' ' :: pstr "    " from rfl] at h
  rw [isPrefixOf_eq_false_of_head_ne (fun hce => by
    rw [hce] at hc
    cases hc)] at h
  cases h

/-! ## The metadata line round-trips through `split(': ', 1)` -/

theorem splitColonSpace_cons (c : Char) (rest : PyStr) :
    splitColonSpace (c :: rest) =
      if c = ':' ∧ rest.headD ' ' = ' ' ∧ rest ≠ [] then some ([], rest.tail)
      else (splitColonSpace rest).map (fun p => (c :: p.1, p.2)) := by
  rfl

theorem splitColonSpace_spaces_sep :
    ∀ (m : Nat) (s : PyStr),
      splitColonSpace (List.replicate m ' ' ++ ':' :: ' ' :: s) =
        some (List.replicate m ' ', s)
  | 0, s => by
      rw [List.replicate_zero, List.nil_append, splitColonSpace_cons,
        if_pos ⟨rfl, rfl, List.cons_ne_nil ' ' s⟩]
      rfl
  | m + 1, s => by
      rw [List.replicate_succ, List.cons_append, splitColonSpace_cons,
        if_neg (fun h => by cases h.1), splitColonSpace_spaces_sep m s]
      rfl

theorem splitColonSpace_metaline :
    ∀ (k : PyStr), containsSub (pstr ": ") k = false → k.getLast? ≠ some ':' →
      ∀ (m : Nat) (s : PyStr),
        splitColonSpace (k ++ List.replicate m ' ' ++ ':' :: ' ' :: s) =
          some (k ++ List.replicate m ' ', s)
  | [], _, _, m, s => by
      rw [List.nil_append]
      exact splitColonSpace_spaces_sep m s
  | c :: k', hk1, hk2, m, s => by
      have hk1' : containsSub (pstr ": ") k' = false := by
        have h2 : ((pstr ": ").isPrefixOf (c :: k') || containsSub (pstr ": ") k') = false := hk1
        exact (Bool.or_eq_false_iff.1 h2).2
      have hcond : ¬ (c = ':' ∧
          (k' ++ List.replicate m ' ' ++ ':' :: ' ' :: s).headD ' ' = ' ' ∧
          (k' ++ List.replicate m ' ' ++ ':' :: ' ' :: s) ≠ []) := by
        rintro ⟨rfl, hhead, _⟩
        rcases k' with _ | ⟨d, k''⟩
        · exact hk2 rfl
        · by_cases hd : d = ' '
          · subst hd
            have hpre : (pstr ": ").isPrefixOf (':' :: ' ' :: k'') = true := by
              rw [show (pstr ": " : PyStr) = [':', ' '] from rfl]
              show ((':' : Char) == ':' && ([' '] : PyStr).isPrefixOf (' ' :: k'')) = true
              rw [beq_self_eq_true]
              show (true && ((' ' : Char) == ' ' && ([] : PyStr).isPrefixOf k'')) = true
              rw [beq_self_eq_true, List.isPrefixOf_nil_left]
              rfl
            have : containsSub (pstr ": ") (':' :: ' ' :: k'') = true := by
              unfold containsSub
              rw [hpre]
              rfl
            rw [this] at hk1
            cases hk1
          · rw [List.cons_append, List.cons_append] at hhead
            exact hd (by simpa using hhead)
      rw [List.cons_append, List.cons_append, splitColonSpace_cons]
      rw [if_neg hcond]
      have hk2' : k'.getLast? ≠ some ':' := by
        rcases k' with _ | ⟨d, k''⟩
        · intro h
          cases h
        · intro h
          exact hk2 (by rw [List.getLast?_cons_cons]; exact h)
      rw [splitColonSpace_metaline k' hk1' hk2' m s]
      rfl

/-! ## The padded column-header join round-trips through the splitters -/

/-- The tail of `' '.join([t.rjust(10) for t in ts])` after its first
token: a join space and a right-justified token, per remaining token. -/
def sepJoin (ts : List PyStr) : PyStr := ts.flatMap (fun u => ' ' :: rjust 10 u)

theorem sepJoin_cons (t : PyStr) (ts : List PyStr) :
    sepJoin (t :: ts) = (' ' :: rjust 10 t) ++ sepJoin ts := by
  unfold sepJoin
  rw [List.flatMap_cons]

theorem intercalate_cons_cons (sep x : PyStr) (y : PyStr) (ts : List PyStr) :
    List.intercalate sep (x :: y :: ts) = x ++ sep ++ List.intercalate sep (y :: ts) := by
  simp [List.intercalate, List.intersperse_cons_cons]

theorem intercalate_single (sep x : PyStr) : List.intercalate sep [x] = x := by
  simp [List.intercalate]

theorem joinR_cons (t : PyStr) (ts : List PyStr) :
    joinR (t :: ts) = rjust 10 t ++ sepJoin ts := by
  induction ts generalizing t with
  | nil =>
      unfold joinR sepJoin
      rw [List.map_cons, List.map_nil, intercalate_single, List.flatMap_nil,
        List.append_nil]
  | cons t2 ts2 ih =>
      unfold joinR at ih ⊢
      rw [List.map_cons, List.map_cons, intercalate_cons_cons, ← List.map_cons,
        sepJoin_cons]
      rw [ih t2]
      simp [pstr, List.append_assoc]

theorem rjust_eq (w : Nat) (s : PyStr) :
    rjust w s = List.replicate (w - s.length) ' ' ++ s := rfl

/-- A nonempty whitespace-free token (what the single-space `split()`
round-trip needs; header tokens are additionally length-bounded). -/
def okToken (f : PyStr) : Prop := f ≠ [] ∧ wsFree f

theorem goodToken_ok {t : PyStr} (ht : goodToken t) : okToken t :=
  ⟨ht.1, ht.2.2⟩

theorem goodToken_last {t : PyStr} (ht : okToken t) :
    ∃ c, t.getLast? = some c ∧ pyWS c = false := by
  rcases ht with ⟨hne, hws⟩
  rcases hl : t.getLast? with _ | c
  · rw [List.getLast?_eq_none_iff] at hl
    exact absurd hl hne
  · exact ⟨c, rfl, hws c (List.mem_of_getLast?_eq_some hl)⟩

theorem rjust_getLast? {t : PyStr} (ht : t ≠ []) (w : Nat) :
    (rjust w t).getLast? = t.getLast? := by
  rw [rjust_eq, List.getLast?_append]
  rcases hl : t.getLast? with _ | c
  · rw [List.getLast?_eq_none_iff] at hl
    exact absurd hl ht
  · rfl

theorem sepJoin_getLast {ts : List PyStr} (hts : ∀ f ∈ ts, okToken f) (hne : ts ≠ []) :
    ∃ c, (sepJoin ts).getLast? = some c ∧ pyWS c = false := by
  induction ts with
  | nil => exact absurd rfl hne
  | cons t ts2 ih =>
      rw [sepJoin_cons]
      rcases ts2 with _ | ⟨t2, ts3⟩
      · rcases goodToken_last (hts t (List.mem_cons_self t _)) with ⟨c, hc, hcws⟩
        refine ⟨c, ?_, hcws⟩
        rw [show sepJoin [] = [] from rfl, List.append_nil]
        rw [show ((' ' :: rjust 10 t : PyStr)).getLast? = (rjust 10 t).getLast? from by
          rw [show (' ' :: rjust 10 t : PyStr) = [' '] ++ rjust 10 t from rfl,
            List.getLast?_append]
          rw [rjust_getLast? (hts t (List.mem_cons_self t _)).1, hc]
          rfl]
        rw [rjust_getLast? (hts t (List.mem_cons_self t _)).1, hc]
      · rcases ih (fun f hf => hts f (List.mem_cons_of_mem t hf)) (List.cons_ne_nil _ _)
          with ⟨c, hc, hcws⟩
        refine ⟨c, ?_, hcws⟩
        rw [List.getLast?_append, hc]
        rfl

theorem pyStrip_eq_self_of_ends {s : PyStr}
    (h1 : ∀ c, s.head? = some c → pyWS c = false)
    (h2 : ∀ c, s.getLast? = some c → pyWS c = false) : pyStrip s = s := by
  unfold pyStrip
  have hfront : s.dropWhile pyWS = s := by
    rcases s with _ | ⟨c, cs⟩
    · rfl
    · exact List.dropWhile_cons_of_neg (by rw [h1 c rfl]; exact Bool.false_ne_true)
  rw [hfront]
  have hback : s.reverse.dropWhile pyWS = s.reverse := by
    rcases hr : s.reverse with _ | ⟨c, cs⟩
    · rfl
    · refine List.dropWhile_cons_of_neg ?_
      have hl : s.getLast? = some c := by
        rw [← List.head?_reverse, hr]
        rfl
      rw [h2 c hl]
      exact Bool.false_ne_true
  rw [hback, List.reverse_reverse]

theorem pyStrip_pad_left (m : Nat) (s : PyStr) :
    pyStrip (List.replicate m ' ' ++ s) = pyStrip s := by
  unfold pyStrip
  rw [dropWhile_replicate_append (by decide) m s]

/-- Stripping the written column-header line exposes the first token
followed by the separator tail. -/
theorem pyStrip_joinR {t : PyStr} {ts : List PyStr} (ht : okToken t)
    (hts : ∀ f ∈ ts, okToken f) :
    pyStrip (joinR (t :: ts)) = t ++ sepJoin ts := by
  rw [joinR_cons, rjust_eq, List.append_assoc, pyStrip_pad_left]
  refine pyStrip_eq_self_of_ends ?_ ?_
  · intro c hc
    rcases t with _ | ⟨c0, t'⟩
    · exact absurd rfl ht.1
    · rw [List.cons_append] at hc
      have : c0 = c := by simpa using hc
      subst this
      exact ht.2 c0 (List.mem_cons_self _ _)
  · intro c hc
    rcases hts0 : ts with _ | ⟨t2, ts2⟩
    · rw [hts0, show sepJoin [] = [] from rfl, List.append_nil] at hc
      rcases goodToken_last ht with ⟨c', hc', hws'⟩
      rw [hc'] at hc
      cases hc
      exact hws'
    · rcases sepJoin_getLast (hts0 ▸ hts) (List.cons_ne_nil _ _) with ⟨c', hc', hws'⟩
      rw [hts0] at hc
      rw [List.getLast?_append, hc'] at hc
      cases hc
      exact hws'

/-! ## The splitters recover the joined tokens -/

theorem splitWs2Go_nil (b : Bool) (acc : PyStr) :
    splitWs2Go b acc [] = [acc.reverse] := by
  cases b <;> rfl

theorem splitWs2Go_false_step {c : Char} (hc : pyWS c = false) (acc s : PyStr) :
    splitWs2Go false acc (c :: s) = splitWs2Go false (c :: acc) s := by
  rcases s with _ | ⟨d, s2⟩
  · rw [splitWs2Go.eq_3, if_neg (by rw [hc]; exact Bool.false_ne_true)]
  · rw [splitWs2Go.eq_4, if_neg (by rw [hc]; exact Bool.false_ne_true)]

theorem splitWs2Go_false_token {t : PyStr} (ht : wsFree t) :
    ∀ (acc r : PyStr), splitWs2Go false acc (t ++ r) = splitWs2Go false (t.reverse ++ acc) r := by
  induction t with
  | nil => intro acc r; rfl
  | cons c t' ih =>
      intro acc r
      rw [List.cons_append, splitWs2Go_false_step (ht c (List.mem_cons_self _ _))]
      rw [ih (fun d hd => ht d (List.mem_cons_of_mem c hd)) (c :: acc) r]
      rw [List.reverse_cons, List.append_assoc]
      rfl

theorem splitWs2Go_false_sep (acc r : PyStr) :
    splitWs2Go false acc (' ' :: ' ' :: r) = acc.reverse :: splitWs2Go true [] r := by
  rw [splitWs2Go.eq_4, if_pos (by decide), if_pos (by decide)]

theorem splitWs2Go_true_spaces (m : Nat) (acc r : PyStr) :
    splitWs2Go true acc (List.replicate m ' ' ++ r) = splitWs2Go true acc r := by
  induction m with
  | zero => rfl
  | succ k ih =>
      rw [List.replicate_succ, List.cons_append]
      rw [splitWs2Go.eq_2, if_pos (by decide)]
      exact ih

theorem splitWs2Go_true_exit {c : Char} (hc : pyWS c = false) (acc r : PyStr) :
    splitWs2Go true acc (c :: r) = splitWs2Go false [c] r := by
  rw [splitWs2Go.eq_2, if_neg (by rw [hc]; exact Bool.false_ne_true)]

theorem splitWs2Go_sepJoin {ts : List PyStr} (hts : ∀ u ∈ ts, goodToken u) :
    ∀ acc : PyStr, splitWs2Go false acc (sepJoin ts) = acc.reverse :: ts := by
  induction ts with
  | nil => intro acc; exact splitWs2Go_nil false acc
  | cons u ts2 ih =>
      intro acc
      rcases hts u (List.mem_cons_self _ _) with ⟨hne, hlen, hws⟩
      rcases hu : u with _ | ⟨c, u'⟩
      · exact absurd hu hne
      rw [sepJoin_cons, rjust_eq]
      have hm : 10 - u.length = (9 - u.length) + 1 := by
        rw [hu] at hlen ⊢
        omega
      rw [hu] at hm
      rw [hm, List.replicate_succ]
      rw [show (' ' :: (' ' :: List.replicate (9 - (c :: u').length) ' ' ++ c :: u') ++
          sepJoin ts2 : PyStr) =
        ' ' :: ' ' :: (List.replicate (9 - (c :: u').length) ' ' ++
          (c :: (u' ++ sepJoin ts2))) from by simp]
      rw [splitWs2Go_false_sep, splitWs2Go_true_spaces,
        splitWs2Go_true_exit (hws c (hu ▸ List.mem_cons_self _ _))]
      rw [splitWs2Go_false_token (fun d hd => hws d (hu ▸ List.mem_cons_of_mem c hd))]
      rw [ih (fun f hf => hts f (List.mem_cons_of_mem u hf)) (u'.reverse ++ [c])]
      rw [List.reverse_append, List.reverse_reverse]
      rfl

/-- `re.split(r'\s\x7b2,\x7d', line.strip())` on a written column-header
line recovers the tokens. -/
theorem splitWs2_joinR {ts : List PyStr} (hts : ∀ u ∈ ts, goodToken u) (hne : ts ≠ []) :
    splitWs2 (pyStrip (joinR ts)) = ts := by
  rcases ts with _ | ⟨t, ts2⟩
  · exact absurd rfl hne
  rw [pyStrip_joinR (goodToken_ok (hts t (List.mem_cons_self _ _)))
    (fun f hf => goodToken_ok (hts f (List.mem_cons_of_mem t hf)))]
  unfold splitWs2
  rw [splitWs2Go_false_token (hts t (List.mem_cons_self _ _)).2.2]
  rw [splitWs2Go_sepJoin (fun f hf => hts f (List.mem_cons_of_mem t hf))]
  rw [List.append_nil, List.reverse_reverse]

theorem splitWsGo_nil_acc {acc : PyStr} (h : acc ≠ []) :
    splitWsGo acc [] = [acc.reverse] := by
  rw [splitWsGo.eq_1, if_neg h]

theorem splitWsGo_token_step {c : Char} (hc : pyWS c = false) (acc s : PyStr) :
    splitWsGo acc (c :: s) = splitWsGo (c :: acc) s := by
  rw [splitWsGo.eq_2, if_neg (by rw [hc]; exact Bool.false_ne_true)]

theorem splitWsGo_token {t : PyStr} (ht : wsFree t) :
    ∀ (acc r : PyStr), splitWsGo acc (t ++ r) = splitWsGo (t.reverse ++ acc) r := by
  induction t with
  | nil => intro acc r; rfl
  | cons c t' ih =>
      intro acc r
      rw [List.cons_append, splitWsGo_token_step (ht c (List.mem_cons_self _ _))]
      rw [ih (fun d hd => ht d (List.mem_cons_of_mem c hd)) (c :: acc) r]
      rw [List.reverse_cons, List.append_assoc]
      rfl

theorem splitWsGo_sep {acc : PyStr} (h : acc ≠ []) (r : PyStr) :
    splitWsGo acc (' ' :: r) = acc.reverse :: splitWsGo [] r := by
  rw [splitWsGo.eq_2, if_pos (by decide), if_neg h]

theorem splitWsGo_skip_spaces (m : Nat) (r : PyStr) :
    splitWsGo [] (List.replicate m ' ' ++ r) = splitWsGo [] r := by
  induction m with
  | zero => rfl
  | succ k ih =>
      rw [List.replicate_succ, List.cons_append]
      rw [splitWsGo.eq_2, if_pos (by decide), if_pos rfl]
      exact ih

theorem splitWsGo_sepJoin {ts : List PyStr} (hts : ∀ u ∈ ts, okToken u) :
    ∀ acc : PyStr, acc ≠ [] → splitWsGo acc (sepJoin ts) = acc.reverse :: ts := by
  induction ts with
  | nil => intro acc hacc; exact splitWsGo_nil_acc hacc
  | cons u ts2 ih =>
      intro acc hacc
      rcases hts u (List.mem_cons_self _ _) with ⟨hne, hws⟩
      rw [sepJoin_cons, rjust_eq]
      rw [show (' ' :: (List.replicate (10 - u.length) ' ' ++ u) ++ sepJoin ts2 : PyStr) =
        ' ' :: (List.replicate (10 - u.length) ' ' ++ (u ++ sepJoin ts2)) from by simp]
      rw [splitWsGo_sep hacc, splitWsGo_skip_spaces]
      rw [splitWsGo_token hws [] (sepJoin ts2), List.append_nil]
      rw [ih (fun f hf => hts f (List.mem_cons_of_mem u hf)) u.reverse
        (by simpa using hne)]
      rw [List.reverse_reverse]

/-- `line.strip().split()` on a written data row recovers the tokens. -/
theorem splitWsTokens_joinR {ts : List PyStr} (hts : ∀ u ∈ ts, okToken u) (hne : ts ≠ []) :
    splitWsTokens (pyStrip (joinR ts)) = ts := by
  rcases ts with _ | ⟨t, ts2⟩
  · exact absurd rfl hne
  rw [pyStrip_joinR (hts t (List.mem_cons_self _ _))
    (fun f hf => hts f (List.mem_cons_of_mem t hf))]
  unfold splitWsTokens
  rw [splitWsGo_token (hts t (List.mem_cons_self _ _)).2 [] (sepJoin ts2),
    List.append_nil]
  rw [splitWsGo_sepJoin (fun f hf => hts f (List.mem_cons_of_mem t hf)) t.reverse
    (by simpa using (hts t (List.mem_cons_self _ _)).1)]
  rw [List.reverse_reverse]

/-! ## `readlines` is a left inverse of the newline join -/

theorem pyReadLines_intercalate {lines : List PyStr}
    (h : ∀ l ∈ lines, '\n' ∉ l) (hne : lines ≠ [])
    (hlast : lines.getLast? ≠ some []) :
    pyReadLines (List.intercalate (pstr "\n") lines) = lines := by
  unfold pyReadLines
  have hs : (List.intercalate (pstr "\n") lines).splitOn '\n' = lines := by
    rw [show pstr "\n" = ['\n'] from rfl]
    exact List.splitOn_intercalate lines '\n' h hne
  rw [hs, if_neg hlast]

/-! ## The written lines of a round-trip-safe document -/

/-- One rendered metadata line of `write`. -/
def metaLine (mwidth : Nat) (p : PyStr × Value) : PyStr :=
  ljust mwidth p.1 ++ pstr ": " ++ rendered p.1 p.2

/-- One rendered data row of `write`. -/
def dataLine (row : List Value) : PyStr := joinR (row.map reprOfValue)

/-- The metadata key-width used by `write`. -/
def metaWidth (d : SHADOZDoc) : Nat :=
  (d.metadata.map (fun p => p.1.length)).foldl max 0

/-- The lines assembled by `write` before the five-space stripping, for a
document on which the `'      Time'`/`'      sec'` replacements are
no-ops. -/
def writtenLines (d : SHADOZDoc) : List PyStr :=
  [natDigits (d.metadata.length + 3)] ++ d.metadata.map (metaLine (metaWidth d)) ++
    [joinR d.data_fields, joinR d.data_fields_units] ++ d.data.map dataLine

/-- The reparsed metadata: each stored value with sub-second time
precision dropped. -/
def mdTrunc (d : SHADOZDoc) : List (PyStr × Value) :=
  d.metadata.map (fun p => (p.1, truncSubSec p.2))

theorem mapM_metaLine {mwidth : Nat} :
    ∀ {l : List (PyStr × Value)}, (∀ p ∈ l, renderMetaValue p.1 p.2 = .ok (rendered p.1 p.2)) →
      l.mapM (fun p => do
        let v2 ← renderMetaValue p.1 p.2
        pure (ljust mwidth p.1 ++ pstr ": " ++ v2)) =
        Except.ok (l.map (metaLine mwidth)) := by
  intro l
  induction l with
  | nil => intro _; rfl
  | cons p ps ih =>
      intro h
      rw [List.mapM_cons, h p (List.mem_cons_self _ _),
        ih (fun q hq => h q (List.mem_cons_of_mem p hq))]
      rfl

/-- `write` on a round-trip-safe document succeeds and produces the
newline join of the five-space-stripped assembled lines. -/
theorem write_rts {d : SHADOZDoc} (h : RoundTripSafe d) :
    write d = .ok (List.intercalate (pstr "\n") ((writtenLines d).map stripFiveSpaces)) := by
  obtain ⟨hmd, hnodup, hpairs, hver, hdf, hlen, htok, hTime, hsec, hrows⟩ := h
  have hmapm := @mapM_metaLine (metaWidth d) d.metadata (fun p hp => (hpairs p hp).2.1)
  simp only [metaWidth] at hmapm
  simp only [write]
  rw [if_neg hmd, hmapm]
  simp only [bind, Except.bind, pure, Except.pure]
  rw [hTime, hsec]
  unfold writtenLines metaWidth dataLine joinR
  simp only [List.map_map, Function.comp]
  simp only [Function.comp_def]

/-! ## Shape facts about the written lines -/

theorem mem_sepJoin {c : Char} {ts : List PyStr} (h : c ∈ sepJoin ts) :
    c = ' ' ∨ ∃ t ∈ ts, c ∈ t := by
  unfold sepJoin at h
  rcases List.mem_flatMap.1 h with ⟨t, ht, hc⟩
  rcases List.mem_cons.1 hc with hc | hc
  · exact Or.inl hc
  · rw [rjust_eq] at hc
    rcases List.mem_append.1 hc with hc | hc
    · exact Or.inl (List.eq_of_mem_replicate hc)
    · exact Or.inr ⟨t, ht, hc⟩

theorem mem_joinR {c : Char} {ts : List PyStr} (h : c ∈ joinR ts) :
    c = ' ' ∨ ∃ t ∈ ts, c ∈ t := by
  rcases ts with _ | ⟨t, ts2⟩
  · exact absurd h (List.not_mem_nil c)
  · rw [joinR_cons, rjust_eq] at h
    rcases List.mem_append.1 h with h | h
    · rcases List.mem_append.1 h with h | h
      · exact Or.inl (List.eq_of_mem_replicate h)
      · exact Or.inr ⟨t, List.mem_cons_self _ _, h⟩
    · rcases mem_sepJoin h with h | ⟨u, hu, hc⟩
      · exact Or.inl h
      · exact Or.inr ⟨u, List.mem_cons_of_mem t hu, hc⟩

theorem newline_not_mem_joinR {ts : List PyStr} (h : ∀ t ∈ ts, wsFree t) :
    '\n' ∉ joinR ts := by
  intro hmem
  rcases mem_joinR hmem with hc | ⟨t, ht, hc⟩
  · exact absurd hc (by decide)
  · exact absurd (h t ht '\n' hc) (by decide)

theorem newline_not_mem_metaLine {w : Nat} {p : PyStr × Value}
    (hk : '\n' ∉ p.1) (hv : '\n' ∉ rendered p.1 p.2) :
    '\n' ∉ metaLine w p := by
  intro hmem
  unfold metaLine ljust at hmem
  rcases List.mem_append.1 hmem with hmem | hmem
  · rcases List.mem_append.1 hmem with hmem | hmem
    · rcases List.mem_append.1 hmem with hmem | hmem
      · exact hk hmem
      · exact absurd (List.eq_of_mem_replicate hmem) (by decide)
    · exact absurd hmem (by decide)
  · exact hv hmem

theorem newline_not_mem_stripFive {l : PyStr} (h : '\n' ∉ l) :
    '\n' ∉ stripFiveSpaces l := by
  unfold stripFiveSpaces
  by_cases hp : (pstr "     ").isPrefixOf l = true
  · rw [if_pos hp]
    intro hmem
    exact h (List.mem_of_mem_drop hmem)
  · rw [if_neg hp]
    exact h

theorem stripFiveSpaces_ne_nil {l : PyStr} (h : pyStrip l ≠ []) :
    stripFiveSpaces l ≠ [] := by
  intro he
  apply h
  rw [← pyStrip_stripFiveSpaces l, he]
  rfl

theorem pyStrip_ne_nil_of_mem {c : Char} {s : PyStr} (h : c ∈ s)
    (hc : pyWS c = false) : pyStrip s ≠ [] := by
  intro he
  have := mem_pyStrip_of_mem h hc
  rw [he] at this
  exact List.not_mem_nil c this

theorem pyStrip_joinR_ne_nil {ts : List PyStr} (hne : ts ≠ [])
    (h : ∀ t ∈ ts, okToken t) : pyStrip (joinR ts) ≠ [] := by
  rcases ts with _ | ⟨t, ts2⟩
  · exact absurd rfl hne
  rw [pyStrip_joinR (h t (List.mem_cons_self _ _))
    (fun f hf => h f (List.mem_cons_of_mem t hf))]
  intro he
  exact (h t (List.mem_cons_self _ _)).1 (List.append_eq_nil.1 he).1

theorem head_mem_metaLine {w : Nat} {c : Char} {cs : PyStr} {v : Value} :
    c ∈ metaLine w (c :: cs, v) := by
  unfold metaLine ljust
  exact List.mem_append.2 (Or.inl (List.mem_append.2 (Or.inl
    (List.mem_append.2 (Or.inl (List.mem_cons_self _ _))))))

/-- Every line written for a round-trip-safe document is, after the
five-space stripping, newline-free and nonempty. -/
theorem writtenLines_ok {d : SHADOZDoc} (h : RoundTripSafe d) :
    ∀ l ∈ (writtenLines d).map stripFiveSpaces, '\n' ∉ l ∧ l ≠ [] := by
  obtain ⟨hmd, hnodup, hpairs, hver, hdf, hlen, htok, hTime, hsec, hrows⟩ := h
  intro l hl
  rcases List.mem_map.1 hl with ⟨x, hx, rfl⟩
  unfold writtenLines at hx
  have hx' := hx
  rcases List.mem_append.1 hx' with hx' | hx'
  · rcases List.mem_append.1 hx' with hx' | hx'
    · rcases List.mem_append.1 hx' with hx' | hx'
      · -- the header-count line
        have hx0 : x = natDigits (d.metadata.length + 3) := by simpa using hx'
        subst hx0
        constructor
        · refine newline_not_mem_stripFive ?_
          intro hmem
          exact absurd (wsFree_natDigits _ '\n' hmem) (by decide)
        · refine stripFiveSpaces_ne_nil ?_
          rcases List.exists_mem_of_ne_nil _ (natDigits_ne_nil (d.metadata.length + 3))
            with ⟨c, hc⟩
          exact pyStrip_ne_nil_of_mem hc
            (digit_not_ws (natDigits_chars hc).1 (natDigits_chars hc).2)
      · -- a metadata line
        rcases List.mem_map.1 hx' with ⟨p, hp, rfl⟩
        rcases hpairs p hp with ⟨hk, hmp⟩
        constructor
        · exact newline_not_mem_stripFive
            (newline_not_mem_metaLine hk.2.2.2.2 hmp.2.2.2.1)
        · refine stripFiveSpaces_ne_nil ?_
          rcases hp1 : p.1 with _ | ⟨c, cs⟩
          · exact absurd hp1 hk.1
          · refine pyStrip_ne_nil_of_mem ?_ (stripStable_head (hp1 ▸ hk.2.1))
            rcases p with ⟨k, v⟩
            cases hp1
            exact head_mem_metaLine
    · -- the two column-header lines
      have hx0 : x = joinR d.data_fields ∨ x = joinR d.data_fields_units := by
        simpa using hx'
      have hword : ∃ ts, (x = joinR ts ∧ ts ≠ [] ∧ ∀ t ∈ ts, okToken t) := by
        rcases hx0 with rfl | rfl
        · exact ⟨d.data_fields, rfl, hdf, fun t ht =>
            goodToken_ok (htok t (List.mem_append.2 (Or.inl ht)))⟩
        · refine ⟨d.data_fields_units, rfl, ?_, fun t ht =>
            goodToken_ok (htok t (List.mem_append.2 (Or.inr ht)))⟩
          intro he
          rw [he, List.length_nil] at hlen
          exact hdf (List.length_eq_zero.1 hlen)
      rcases hword with ⟨ts, rfl, hne, hts⟩
      constructor
      · refine newline_not_mem_stripFive (newline_not_mem_joinR ?_)
        exact fun t ht => (hts t ht).2
      · exact stripFiveSpaces_ne_nil (pyStrip_joinR_ne_nil hne hts)
  · -- a data line
    rcases List.mem_map.1 hx' with ⟨row, hrow, rfl⟩
    rcases hrows row hrow with ⟨hrlen, hrgood⟩
    have hne : row.map reprOfValue ≠ [] := by
      intro he
      rw [List.map_eq_nil] at he
      rw [he, List.length_nil] at hrlen
      exact hdf (List.length_eq_zero.1 hrlen.symm)
    have hts : ∀ t ∈ row.map reprOfValue, okToken t := by
      intro t ht
      rcases List.mem_map.1 ht with ⟨v, hv, rfl⟩
      exact ⟨(hrgood v hv).1, (hrgood v hv).2.1⟩
    constructor
    · exact newline_not_mem_stripFive (newline_not_mem_joinR (fun t ht => (hts t ht).2))
    · exact stripFiveSpaces_ne_nil (pyStrip_joinR_ne_nil hne hts)

/-- `readlines` recovers the written lines of a round-trip-safe
document. -/
theorem readlines_written {d : SHADOZDoc} (h : RoundTripSafe d) :
    pyReadLines (List.intercalate (pstr "\n") ((writtenLines d).map stripFiveSpaces)) =
      (writtenLines d).map stripFiveSpaces := by
  refine pyReadLines_intercalate (fun l hl => (writtenLines_ok h l hl).1) ?_ ?_
  · intro he
    rw [List.map_eq_nil] at he
    unfold writtenLines at he
    simp at he
  · intro hlast
    exact (writtenLines_ok h _ (List.mem_of_getLast?_eq_some hlast)).2 rfl

theorem containsSub_prefix : ∀ (pat y : PyStr), containsSub pat (pat ++ y) = true
  | [], [] => rfl
  | [], c :: y' => by
      show (([] : PyStr).isPrefixOf (c :: y') || containsSub [] y') = true
      rw [List.isPrefixOf_nil_left]
      rfl
  | c :: p', y => by
      show ((c :: p').isPrefixOf (c :: (p' ++ y)) || containsSub (c :: p') (p' ++ y)) = true
      rw [show (c :: p').isPrefixOf (c :: (p' ++ y)) =
        (c :: p').isPrefixOf ((c :: p') ++ y) from rfl]
      rw [isPrefixOf_self_append]
      rfl

theorem stripFiveSpaces_eq_self_of_head {l : PyStr}
    (h : ∀ c, l.head? = some c → pyWS c = false) : stripFiveSpaces l = l := by
  rcases l with _ | ⟨c, cs⟩
  · rfl
  · exact stripFiveSpaces_id (h c rfl)

theorem mem_head?_not_ws_natDigits (n : Nat) :
    ∀ c, (natDigits n).head? = some c → pyWS c = false := by
  intro c hc
  have hm : c ∈ natDigits n := List.mem_of_mem_head? (by rw [hc]; exact rfl)
  exact digit_not_ws (natDigits_chars hm).1 (natDigits_chars hm).2

theorem stripFiveSpaces_natDigits (n : Nat) :
    stripFiveSpaces (natDigits n) = natDigits n :=
  stripFiveSpaces_eq_self_of_head (mem_head?_not_ws_natDigits n)

/-- `versionOK` yields the version-bearing metadata pair. -/
theorem versionOK_pair {d : SHADOZDoc} (h : versionOK d = true) :
    ∃ p ∈ d.metadata, p.1 = pstr "SHADOZ Version" ∧
      odGet d.metadata (pstr "SHADOZ Version") = some p.2 := by
  unfold versionOK at h
  rcases hg : odGet d.metadata (pstr "SHADOZ Version") with _ | v
  · rw [hg] at h
    exact absurd h (by simp)
  · unfold odGet at hg
    rcases hf : d.metadata.find? (fun p => p.1 = pstr "SHADOZ Version") with _ | p
    · rw [hf] at hg
      exact absurd hg (by simp)
    · refine ⟨p, List.mem_of_find?_eq_some hf, ?_, ?_⟩
      · have hps := List.find?_some hf
        exact of_decide_eq_true hps
      · rw [hf] at hg
        simp only [Option.map] at hg
        exact hg.symm

/-- The written text of a round-trip-safe document passes the
`'SHADOZ Version'` format sniff. -/
theorem sniff_written {d : SHADOZDoc} (h : RoundTripSafe d) :
    ((writtenLines d).map stripFiveSpaces).any
      (fun s => containsSub (pstr "SHADOZ Version") s) = true := by
  rcases versionOK_pair h.2.2.2.1 with ⟨p, hp, hkey, _⟩
  refine List.any_eq_true.2 ⟨stripFiveSpaces (metaLine (metaWidth d) p), ?_, ?_⟩
  · refine List.mem_map.2 ⟨metaLine (metaWidth d) p, ?_, rfl⟩
    unfold writtenLines
    exact List.mem_append.2 (Or.inl (List.mem_append.2 (Or.inl (List.mem_append.2
      (Or.inr (List.mem_map.2 ⟨p, hp, rfl⟩))))))
  · rcases p with ⟨k, v⟩
    simp only at hkey
    subst hkey
    rw [show metaLine (metaWidth d) (pstr "SHADOZ Version", v) =
      pstr "SHADOZ Version" ++
        (List.replicate (metaWidth d - (pstr "SHADOZ Version").length) ' ' ++
          pstr ": " ++ rendered (pstr "SHADOZ Version") v) from by
      unfold metaLine ljust
      simp [List.append_assoc]]
    rw [show (pstr "SHADOZ Version" ++
        (List.replicate (metaWidth d - (pstr "SHADOZ Version").length) ' ' ++
          pstr ": " ++ rendered (pstr "SHADOZ Version") v)) =
      'S' :: (pstr "HADOZ Version" ++
        (List.replicate (metaWidth d - (pstr "SHADOZ Version").length) ' ' ++
          pstr ": " ++ rendered (pstr "SHADOZ Version") v)) from rfl]
    rw [stripFiveSpaces_id (by decide)]
    exact containsSub_prefix (pstr "SHADOZ Version") _

/-! ## Success glue: all parser stages succeed -/

theorem parseSHADOZ_ok_glue (filelines : List PyStr) (version N : Int)
    (ws w2 : List String) (md : List (PyStr × Value)) (q : ℚ)
    (dfs dfus : List PyStr) (rows : List (List Value))
    (hs : filelines.any (fun s => containsSub (pstr "SHADOZ Version") s) = true)
    (hn : pyIntParse (filelines.headD []) = some N)
    (hm : parseMetaLines (pySlice filelines 1 (N - 2)) Option.none [] [] = (ws, .ok md))
    (hv : checkVersion md version = .ok q)
    (hf : parseFieldsUnits filelines N = .ok (dfs, dfus))
    (hr : parseDataRows dfs.length (pySliceFrom filelines N) [] = (w2, .ok rows)) :
    parseSHADOZ filelines version =
      (ws ++ w2, .ok ⟨some q, Option.none, md, dfs, dfus, rows⟩) := by
  unfold parseSHADOZ
  rw [if_neg (by rw [hs]; exact fun hc => hc rfl), hn]
  show parseAfterCount filelines version N = _
  unfold parseAfterCount
  rw [hm]
  show parseAfterMeta filelines version N ws md = _
  unfold parseAfterMeta
  rw [hv]
  show parseAfterVersion filelines N ws md q = _
  unfold parseAfterVersion
  rw [hf]
  show parseAfterFields filelines N ws md q dfs dfus = _
  unfold parseAfterFields
  rw [hr]

/-! ## Positional arithmetic on the written line list -/

theorem pySlice_block (x0 F U : PyStr) (M Dls : List PyStr) :
    pySlice (x0 :: (M ++ ([F, U] ++ Dls))) 1 ((M.length : Int) + 1) = M := by
  unfold pySlice pyBound
  rw [if_neg (by omega), if_neg (by omega)]
  have hb : ((M.length : Int) + 1).toNat = M.length + 1 := by omega
  have h1 : ((1 : Int)).toNat = 1 := rfl
  rw [hb, h1]
  have hlen : (x0 :: (M ++ ([F, U] ++ Dls))).length = M.length + 1 + ([F, U] ++ Dls).length := by
    simp
    omega
  rw [hlen]
  rw [min_eq_right (by omega), min_eq_right (by omega)]
  rw [show (x0 :: (M ++ ([F, U] ++ Dls))) = (x0 :: M) ++ ([F, U] ++ Dls) from by simp]
  rw [show M.length + 1 = (x0 :: M).length from by simp]
  rw [List.take_left]
  rfl

theorem pyListGet_block_F (x0 F U : PyStr) (M Dls : List PyStr) :
    pyListGet (x0 :: (M ++ ([F, U] ++ Dls))) ((M.length : Int) + 1) = .ok F := by
  unfold pyListGet
  rw [if_neg (by omega), if_neg (by omega)]
  have hb : ((M.length : Int) + 1).toNat = M.length + 1 := by omega
  rw [hb]
  rw [show (x0 :: (M ++ ([F, U] ++ Dls))).get? (M.length + 1) =
    (M ++ ([F, U] ++ Dls)).get? M.length from rfl]
  rw [List.get?_eq_getElem?, List.getElem?_append_right (Nat.le_refl _), Nat.sub_self]
  rfl

theorem pyListGet_block_U (x0 F U : PyStr) (M Dls : List PyStr) :
    pyListGet (x0 :: (M ++ ([F, U] ++ Dls))) ((M.length : Int) + 2) = .ok U := by
  unfold pyListGet
  rw [if_neg (by omega), if_neg (by omega)]
  have hb : ((M.length : Int) + 2).toNat = M.length + 2 := by omega
  rw [hb]
  rw [show (x0 :: (M ++ ([F, U] ++ Dls))).get? (M.length + 2) =
    (M ++ ([F, U] ++ Dls)).get? (M.length + 1) from rfl]
  rw [List.get?_eq_getElem?, List.getElem?_append_right (by omega)]
  rw [show M.length + 1 - M.length = 1 from by omega]
  simp

theorem pySliceFrom_block (x0 F U : PyStr) (M Dls : List PyStr) :
    pySliceFrom (x0 :: (M ++ ([F, U] ++ Dls))) ((M.length : Int) + 3) = Dls := by
  unfold pySliceFrom pyBound
  rw [if_neg (by omega)]
  have hb : ((M.length : Int) + 3).toNat = M.length + 3 := by omega
  rw [hb]
  have hlen : (x0 :: (M ++ ([F, U] ++ Dls))).length = M.length + 3 + Dls.length := by
    simp
    omega
  rw [hlen, min_eq_right (by omega)]
  rw [show (x0 :: (M ++ ([F, U] ++ Dls))) = (x0 :: (M ++ [F, U])) ++ Dls from by simp]
  rw [show M.length + 3 = (x0 :: (M ++ [F, U])).length from by
    simp only [List.length_cons, List.length_append, List.length_nil]]
  rw [List.drop_left]

/-- The written line list in head/middle/tail form. -/
theorem writtenLines_map (d : SHADOZDoc) :
    (writtenLines d).map stripFiveSpaces =
      natDigits (d.metadata.length + 3) ::
        (d.metadata.map (fun p => stripFiveSpaces (metaLine (metaWidth d) p)) ++
          ([stripFiveSpaces (joinR d.data_fields),
            stripFiveSpaces (joinR d.data_fields_units)] ++
            d.data.map (fun r => stripFiveSpaces (dataLine r)))) := by
  unfold writtenLines
  simp only [List.map_append, List.map_cons, List.map_nil, List.map_map, Function.comp_def]
  rw [stripFiveSpaces_natDigits]
  simp

theorem odSet_fresh {md : List (PyStr × Value)} {k : PyStr} (v : Value)
    (h : md.any (fun p => p.1 = k) = false) :
    odSet md k v = md ++ [(k, v)] := by
  unfold odSet
  rw [if_neg (by rw [h]; exact Bool.false_ne_true)]

theorem map_pyStrip_id {ts : List PyStr} (h : ∀ t ∈ ts, wsFree t) :
    ts.map pyStrip = ts := by
  induction ts with
  | nil => rfl
  | cons t ts2 ih =>
      rw [List.map_cons, pyStrip_eq_self (h t (List.mem_cons_self _ _)),
        ih (fun u hu => h u (List.mem_cons_of_mem t hu))]

/-! ## The metadata loop round-trips the rendered metadata lines -/

theorem stripFive_metaLine {w : Nat} {k : PyStr} {v : Value}
    (hk1 : k ≠ []) (hk2 : stripStable k) :
    stripFiveSpaces (metaLine w (k, v)) = metaLine w (k, v) := by
  rcases k with _ | ⟨c, cs⟩
  · exact absurd rfl hk1
  · exact stripFiveSpaces_id (stripStable_head hk2)

theorem metaLine_split {w : Nat} (k : PyStr) (v : Value)
    (hcont : containsSub (pstr ": ") k = false) (hlast : k.getLast? ≠ some ':') :
    splitColonSpace (metaLine w (k, v)) =
      some (k ++ List.replicate (w - k.length) ' ', rendered k v) := by
  rw [show metaLine w (k, v) =
    (k ++ List.replicate (w - k.length) ' ') ++ (':' :: ' ' :: rendered k v) from by
      unfold metaLine ljust
      simp [List.append_assoc]
      rfl]
  exact splitColonSpace_metaline k hcont hlast (w - k.length) (rendered k v)

theorem metaLineStep_rts {w : Nat} {k : PyStr} {v : Value}
    (hk : goodKey k) (hmp : goodMetaPair k v) (lastKey : Option PyStr) :
    metaLineStep (metaLine w (k, v)) lastKey =
      .store k (truncSubSec v) (get_value_type k (rendered k v)).1 := by
  unfold metaLineStep
  rw [metaLine_split k v hk.2.2.1 hk.2.2.2.1]
  show (match get_value_type (pyStrip (k ++ List.replicate (w - k.length) ' '))
      (pyStrip (rendered k v)) with
    | (w2, .ok v) => MetaStep.store (pyStrip (k ++ List.replicate (w - k.length) ' ')) v w2
    | (w2, .error e) =>
        if e = PyErr.valueError then
          MetaStep.store (pyStrip (k ++ List.replicate (w - k.length) ' ')) Value.none
            (w2 ++ ["No value found for " ++
              String.mk (pyStrip (k ++ List.replicate (w - k.length) ' '))])
        else MetaStep.err w2 e) = _
  rw [pyStrip_append_spaces hk.2.1 hk.1, hmp.2.2.1]
  rcases hgv : get_value_type k (rendered k v) with ⟨w2, r⟩
  have hr : r = .ok (truncSubSec v) := by
    have := hmp.2.2.2.2
    rw [hgv] at this
    exact this
  subst hr
  rfl

theorem parseMetaLines_rts {w : Nat} :
    ∀ (ps md : List (PyStr × Value)) (ws : List String) (lastKey : Option PyStr),
      (∀ p ∈ ps, goodKey p.1 ∧ goodMetaPair p.1 p.2) →
      (∀ p ∈ ps, md.any (fun q => q.1 = p.1) = false) →
      (ps.map Prod.fst).Nodup →
      ∃ W, parseMetaLines (ps.map (fun p => stripFiveSpaces (metaLine w p))) lastKey md ws =
        (ws ++ W, .ok (md ++ ps.map (fun p => (p.1, truncSubSec p.2)))) := by
  intro ps
  induction ps with
  | nil =>
      intro md ws lastKey _ _ _
      exact ⟨[], by simp [parseMetaLines]⟩
  | cons p ps2 ih =>
      intro md ws lastKey hgood hfresh hnodup
      rcases p with ⟨k, v⟩
      rcases hgood (k, v) (List.mem_cons_self _ _) with ⟨hk, hmp⟩
      have hstep : parseMetaLines
          (((k, v) :: ps2).map (fun p => stripFiveSpaces (metaLine w p))) lastKey md ws =
          parseMetaLines (ps2.map (fun p => stripFiveSpaces (metaLine w p))) (some k)
            (md ++ [(k, truncSubSec v)]) (ws ++ (get_value_type k (rendered k v)).1) := by
        rw [List.map_cons, stripFive_metaLine hk.1 hk.2.1]
        rw [show parseMetaLines
            (metaLine w (k, v) :: ps2.map (fun p => stripFiveSpaces (metaLine w p)))
            lastKey md ws =
          (match metaLineStep (metaLine w (k, v)) lastKey with
            | .store k2 v2 w2 =>
                parseMetaLines (ps2.map (fun p => stripFiveSpaces (metaLine w p)))
                  (some k2) (odSet md k2 v2) (ws ++ w2)
            | .err w2 e => (ws ++ w2, .error e)) from rfl]
        rw [metaLineStep_rts hk hmp lastKey]
        show parseMetaLines (ps2.map (fun p => stripFiveSpaces (metaLine w p))) (some k)
            (odSet md k (truncSubSec v)) (ws ++ (get_value_type k (rendered k v)).1) = _
        rw [odSet_fresh (truncSubSec v) (hfresh (k, v) (List.mem_cons_self _ _))]
      rw [hstep]
      have hfresh2 : ∀ p2 ∈ ps2, (md ++ [(k, truncSubSec v)]).any
          (fun q => q.1 = p2.1) = false := by
        intro p2 hp2
        rw [List.any_append]
        rw [hfresh p2 (List.mem_cons_of_mem _ hp2)]
        have hne : k ≠ p2.1 := by
          intro he
          have : k ∈ ps2.map Prod.fst := he ▸ List.mem_map.2 ⟨p2, hp2, rfl⟩
          rw [List.map_cons] at hnodup
          exact (List.nodup_cons.1 hnodup).1 this
        simp [hne]
      rcases ih (md ++ [(k, truncSubSec v)])
        (ws ++ (get_value_type k (rendered k v)).1) (some k)
        (fun p2 hp2 => hgood p2 (List.mem_cons_of_mem _ hp2)) hfresh2
        (by rw [List.map_cons] at hnodup; exact (List.nodup_cons.1 hnodup).2)
        with ⟨W2, hW2⟩
      refine ⟨(get_value_type k (rendered k v)).1 ++ W2, ?_⟩
      rw [hW2]
      simp [List.append_assoc]

/-! ## Version, column-header and data stages on the written lines -/

theorem odGet_map (l : List (PyStr × Value)) (f : Value → Value) (k : PyStr) :
    odGet (l.map (fun p => (p.1, f p.2))) k = (odGet l k).map f := by
  induction l with
  | nil => rfl
  | cons p l2 ih =>
      unfold odGet at ih ⊢
      rw [List.map_cons]
      by_cases hk : p.1 = k
      · rw [List.find?_cons_of_pos _ (by simpa using hk),
          List.find?_cons_of_pos _ (by simpa using hk)]
        rfl
      · rw [List.find?_cons_of_neg _ (by simpa using hk),
          List.find?_cons_of_neg _ (by simpa using hk)]
        exact ih

theorem checkVersion_rts {d : SHADOZDoc} (h : versionOK d = true) :
    ∃ q : ℚ, checkVersion (mdTrunc d) 5 = .ok q := by
  unfold versionOK at h
  rcases hg : odGet d.metadata (pstr "SHADOZ Version") with _ | v
  · rw [hg] at h
    exact absurd h (by simp)
  · rw [hg] at h
    have h2 : (match resolveVersionValue (truncSubSec v) with
      | .ok q => decide (pyIntOfFloat q = 5)
      | .error _ => false) = true := h
    rcases hres : resolveVersionValue (truncSubSec v) with e | q
    · rw [hres] at h2
      exact absurd h2 (by simp)
    · rw [hres] at h2
      refine ⟨q, ?_⟩
      unfold checkVersion
      unfold mdTrunc
      rw [odGet_map, hg]
      show (match resolveVersionValue (truncSubSec v) with
        | .error e => Except.error e
        | .ok q =>
            if pyIntOfFloat q ≠ (5 : Int) then
              Except.error (.invalidData "Invalid SHADOZ version")
            else Except.ok q) = _
      rw [hres]
      show (if pyIntOfFloat q ≠ (5 : Int) then
          Except.error (PyErr.invalidData "Invalid SHADOZ version")
        else Except.ok q) = Except.ok q
      exact if_neg (fun hc => hc (of_decide_eq_true h2))

theorem parseFieldsUnits_rts {d : SHADOZDoc} (h : RoundTripSafe d) :
    parseFieldsUnits ((writtenLines d).map stripFiveSpaces)
      ((d.metadata.length : Int) + 3) = .ok (d.data_fields, d.data_fields_units) := by
  obtain ⟨hmd, hnodup, hpairs, hver, hdf, hlen, htok, hTime, hsec, hrows⟩ := h
  have hdfu : d.data_fields_units ≠ [] := by
    intro he
    rw [he, List.length_nil] at hlen
    exact hdf (List.length_eq_zero.1 hlen)
  have hM : (d.metadata.map (fun p => stripFiveSpaces (metaLine (metaWidth d) p))).length =
      d.metadata.length := List.length_map _ _
  have hF := pyListGet_block_F (natDigits (d.metadata.length + 3))
    (stripFiveSpaces (joinR d.data_fields)) (stripFiveSpaces (joinR d.data_fields_units))
    (d.metadata.map (fun p => stripFiveSpaces (metaLine (metaWidth d) p)))
    (d.data.map (fun r => stripFiveSpaces (dataLine r)))
  have hU := pyListGet_block_U (natDigits (d.metadata.length + 3))
    (stripFiveSpaces (joinR d.data_fields)) (stripFiveSpaces (joinR d.data_fields_units))
    (d.metadata.map (fun p => stripFiveSpaces (metaLine (metaWidth d) p)))
    (d.data.map (fun r => stripFiveSpaces (dataLine r)))
  rw [hM] at hF hU
  have hFs : splitWs2 (pyStrip (stripFiveSpaces (joinR d.data_fields))) = d.data_fields := by
    rw [pyStrip_stripFiveSpaces]
    exact splitWs2_joinR (fun t ht => htok t (List.mem_append.2 (Or.inl ht))) hdf
  have hUs : splitWs2 (pyStrip (stripFiveSpaces (joinR d.data_fields_units))) =
      d.data_fields_units := by
    rw [pyStrip_stripFiveSpaces]
    exact splitWs2_joinR (fun t ht => htok t (List.mem_append.2 (Or.inr ht))) hdfu
  have hres := parseFieldsUnits_ok ((writtenLines d).map stripFiveSpaces)
    ((d.metadata.length : Int) + 3)
    (stripFiveSpaces (joinR d.data_fields)) (stripFiveSpaces (joinR d.data_fields_units))
    (by rw [writtenLines_map]
        rw [show ((d.metadata.length : Int) + 3) - 2 = (d.metadata.length : Int) + 1 from by
          omega]
        exact hF)
    (by rw [writtenLines_map]
        rw [show ((d.metadata.length : Int) + 3) - 1 = (d.metadata.length : Int) + 2 from by
          omega]
        exact hU)
    (by rw [hFs, hUs,
          map_pyStrip_id (fun t ht => (htok t (List.mem_append.2 (Or.inl ht))).2.2),
          map_pyStrip_id (fun t ht => (htok t (List.mem_append.2 (Or.inr ht))).2.2)]
        exact hlen)
  rw [hFs, hUs,
    map_pyStrip_id (fun t ht => (htok t (List.mem_append.2 (Or.inl ht))).2.2),
    map_pyStrip_id (fun t ht => (htok t (List.mem_append.2 (Or.inr ht))).2.2)] at hres
  exact hres

theorem mapTokens_rts :
    ∀ (row : List Value), (∀ x ∈ row, goodDatum x) →
      ∃ W, mapTokens (row.map reprOfValue) = (W, .ok row) := by
  intro row
  induction row with
  | nil => exact fun _ => ⟨[], rfl⟩
  | cons x row2 ih =>
      intro hgood
      rcases ih (fun y hy => hgood y (List.mem_cons_of_mem x hy)) with ⟨W2, hW2⟩
      rcases hgv : get_value_type (pstr "default") (reprOfValue x) with ⟨w1, r⟩
      have hr : r = .ok x := by
        have := (hgood x (List.mem_cons_self _ _)).2.2
        rw [hgv] at this
        exact this
      subst hr
      refine ⟨w1 ++ W2, ?_⟩
      rw [List.map_cons]
      unfold mapTokens
      rw [hgv, hW2]

theorem parseDataRows_rts {n : Nat} (hn : n ≠ 0) :
    ∀ (rows : List (List Value)) (ws : List String),
      (∀ row ∈ rows, row.length = n ∧ ∀ x ∈ row, goodDatum x) →
      ∃ W, parseDataRows n (rows.map (fun r => stripFiveSpaces (dataLine r))) ws =
        (ws ++ W, .ok rows) := by
  intro rows
  induction rows with
  | nil =>
      intro ws _
      exact ⟨[], by simp [parseDataRows]⟩
  | cons row rows2 ih =>
      intro ws hgood
      rcases hgood row (List.mem_cons_self _ _) with ⟨hrlen, hrgood⟩
      have hrne : row.map reprOfValue ≠ [] := by
        intro he
        rw [List.map_eq_nil_iff] at he
        rw [he, List.length_nil] at hrlen
        exact hn hrlen.symm
      have hsplit : splitWsTokens (pyStrip (stripFiveSpaces (dataLine row))) =
          row.map reprOfValue := by
        rw [pyStrip_stripFiveSpaces]
        unfold dataLine
        exact splitWsTokens_joinR
          (fun t ht => by
            rcases List.mem_map.1 ht with ⟨x, hx, rfl⟩
            exact ⟨(hrgood x hx).1, (hrgood x hx).2.1⟩)
          hrne
      rcases mapTokens_rts row hrgood with ⟨W1, hW1⟩
      rcases ih (ws ++ W1) (fun r hr => hgood r (List.mem_cons_of_mem row hr)) with ⟨W2, hW2⟩
      refine ⟨W1 ++ W2, ?_⟩
      rw [List.map_cons]
      unfold parseDataRows
      rw [hsplit, hW1]
      show (if row.length ≠ n then
          (ws ++ W1, Except.error (.invalidData "Data length not equal to number of fields"))
        else match parseDataRows n (rows2.map (fun r => stripFiveSpaces (dataLine r)))
            (ws ++ W1) with
          | (w3, .ok rows) => (w3, Except.ok (row :: rows))
          | (w3, .error e) => (w3, Except.error e)) = _
      rw [if_neg (by rw [hrlen]; exact fun hc => hc rfl)]
      rw [hW2]
      show (ws ++ W1 ++ W2, Except.ok (row :: rows2)) = _
      rw [List.append_assoc]

/-- C1 (amended): for every directly-built document in the
round-trip-safe class — nonempty metadata whose keys are distinct,
nonempty, strip-stable, newline-free, contain no `': '` and do not end
in `':'`, whose values render successfully to nonempty strip-stable
newline-free strings that re-infer under the same key to the stored
value, with a `'SHADOZ Version'` entry resolving to major version 5;
nonempty equal-length column-header lists of nonempty whitespace-free
tokens of at most 9 characters on which the writer's cosmetic
`'      Time'`/`'      sec'` replacements are no-ops; and rows of
matching length whose value `repr`s are nonempty, whitespace-free and
re-infer to themselves — parsing the serialized text succeeds and
recovers the metadata modulo sub-second time truncation, and the
fields, units and rows exactly.  The bare invariants of the original
claim do not suffice: see `C1_counterexample`. -/
theorem C1_round_trip (d : SHADOZDoc) (h : RoundTripSafe d) :
    ∃ (w : PyStr) (ws : List String) (q : ℚ),
      write d = .ok w ∧
      loads w = (ws, .ok (SHADOZDoc.mk (some q) Option.none (mdTrunc d)
        d.data_fields d.data_fields_units d.data)) := by
  obtain ⟨hmd, hnodup, hpairs, hver, hdf, hlen, htok, hTime, hsec, hrows⟩ := h
  have h : RoundTripSafe d :=
    ⟨hmd, hnodup, hpairs, hver, hdf, hlen, htok, hTime, hsec, hrows⟩
  refine ⟨List.intercalate (pstr "\n") ((writtenLines d).map stripFiveSpaces), ?_⟩
  have hM : (d.metadata.map (fun p => stripFiveSpaces (metaLine (metaWidth d) p))).length =
      d.metadata.length := List.length_map _ _
  have hn : pyIntParse (((writtenLines d).map stripFiveSpaces).headD []) =
      some ((d.metadata.length : Int) + 3) := by
    rw [writtenLines_map]
    show pyIntParse (natDigits (d.metadata.length + 3)) = _
    rw [pyIntParse_natDigits]
    congr 1
  have hslice : pySlice ((writtenLines d).map stripFiveSpaces) 1
      (((d.metadata.length : Int) + 3) - 2) =
      d.metadata.map (fun p => stripFiveSpaces (metaLine (metaWidth d) p)) := by
    rw [writtenLines_map]
    rw [show ((d.metadata.length : Int) + 3) - 2 =
      ((d.metadata.map (fun p => stripFiveSpaces (metaLine (metaWidth d) p))).length : Int)
        + 1 from by rw [hM]; omega]
    exact pySlice_block _ _ _ _ _
  rcases @parseMetaLines_rts (metaWidth d) d.metadata [] [] Option.none
    hpairs (fun p _ => rfl) hnodup with ⟨W1, hW1⟩
  have hm : parseMetaLines (pySlice ((writtenLines d).map stripFiveSpaces) 1
      (((d.metadata.length : Int) + 3) - 2)) Option.none [] [] =
      (W1, .ok (mdTrunc d)) := by
    rw [hslice]
    exact hW1
  rcases checkVersion_rts hver with ⟨q, hq⟩
  have hfrom : pySliceFrom ((writtenLines d).map stripFiveSpaces)
      ((d.metadata.length : Int) + 3) =
      d.data.map (fun r => stripFiveSpaces (dataLine r)) := by
    rw [writtenLines_map]
    rw [show ((d.metadata.length : Int) + 3) =
      ((d.metadata.map (fun p => stripFiveSpaces (metaLine (metaWidth d) p))).length : Int)
        + 3 from by rw [hM]]
    exact pySliceFrom_block _ _ _ _ _
  rcases parseDataRows_rts (fun hz => hdf (List.length_eq_zero.1 hz)) d.data []
    hrows with ⟨W2, hW2⟩
  have hr : parseDataRows d.data_fields.length
      (pySliceFrom ((writtenLines d).map stripFiveSpaces)
        ((d.metadata.length : Int) + 3)) [] = (W2, .ok d.data) := by
    rw [hfrom]
    exact hW2
  refine ⟨W1 ++ W2, q, write_rts h, ?_⟩
  unfold loads
  rw [readlines_written h]
  exact parseSHADOZ_ok_glue ((writtenLines d).map stripFiveSpaces) 5
    ((d.metadata.length : Int) + 3) W1 W2 (mdTrunc d) q
    d.data_fields d.data_fields_units d.data
    (sniff_written h) hn hm hq (parseFieldsUnits_rts h) hr

/-- A directly-built document meeting the original claim's bare
invariants (equal field/unit counts, matching row lengths, nonempty
metadata) whose serialization does not reparse: it has no
`'SHADOZ Version'` metadata entry. -/
def roundTripCexDoc : SHADOZDoc :=
  ⟨Option.none, Option.none, [(pstr "a", Value.int 1)], [pstr "F"], [pstr "u"], []⟩

/-- C1 counterexample: the invariant-satisfying document
`roundTripCexDoc` serializes successfully, but parsing the written text
fails with the format-detection error instead of recovering the
document. -/
theorem C1_counterexample :
    (roundTripCexDoc.data_fields.length = roundTripCexDoc.data_fields_units.length ∧
      (∀ row ∈ roundTripCexDoc.data, row.length = roundTripCexDoc.data_fields.length) ∧
      roundTripCexDoc.metadata ≠ []) ∧
    ∃ w, write roundTripCexDoc = .ok w ∧
      (loads w).2 = .error (.invalidData "Unable to detect SHADOZ format") := by
  refine ⟨by decide, ⟨pstr "4\na: 1\n    F\n    u", ?_, ?_⟩⟩
  · rfl
  · rfl

/-- A concrete round-trip-safe document used to witness `C1_round_trip`. -/
def roundTripWitDoc : SHADOZDoc :=
  ⟨Option.none, Option.none, [(pstr "SHADOZ Version", Value.int 5)],
    [pstr "F"], [pstr "u"], [[Value.int 7]]⟩

theorem roundTripWitDoc_safe : RoundTripSafe roundTripWitDoc := by
  refine ⟨by decide, by decide, ?_, ?_, by decide, by decide, ?_, by decide,
    by decide, ?_⟩
  · intro p hp
    have hp2 : p = (pstr "SHADOZ Version", Value.int 5) := by
      simpa [roundTripWitDoc] using hp
    subst hp2
    constructor
    · exact ⟨by decide, by rfl, by decide, by decide, by decide⟩
    · exact ⟨by rfl, by decide, by rfl, by decide, by rfl⟩
  · show versionOK roundTripWitDoc = true
    unfold versionOK roundTripWitDoc
    rw [show odGet [(pstr "SHADOZ Version", Value.int 5)] (pstr "SHADOZ Version") =
      some (Value.int 5) from rfl]
    show (match resolveVersionValue (truncSubSec (Value.int 5)) with
      | .ok q => decide (pyIntOfFloat q = 5)
      | .error _ => false) = true
    rw [show resolveVersionValue (truncSubSec (Value.int 5)) =
      Except.ok ((5 : Int) : ℚ) from rfl]
    show decide (pyIntOfFloat ((5 : Int) : ℚ) = 5) = true
    rw [show pyIntOfFloat ((5 : Int) : ℚ) = 5 from by
      unfold pyIntOfFloat
      rw [if_neg (by norm_num)]
      norm_num]
    rfl
  · intro f hf
    have hf2 : f = pstr "F" ∨ f = pstr "u" := by
      simpa [roundTripWitDoc] using hf
    rcases hf2 with rfl | rfl
    · exact ⟨by decide, by decide, by show ∀ c ∈ pstr "F", pyWS c = false; decide⟩
    · exact ⟨by decide, by decide, by show ∀ c ∈ pstr "u", pyWS c = false; decide⟩
  · intro row hrow
    have hr2 : row = [Value.int 7] := by
      simpa [roundTripWitDoc] using hrow
    subst hr2
    refine ⟨by decide, ?_⟩
    intro x hx
    have hx2 : x = Value.int 7 := by simpa using hx
    subst hx2
    refine ⟨by decide, ?_, by rfl⟩
    show ∀ c ∈ reprOfValue (Value.int 7), pyWS c = false
    decide

/-- Witness for `C1_round_trip`: the concrete document `roundTripWitDoc`
is round-trip safe and round-trips. -/
theorem C1_round_trip_witness :
    RoundTripSafe roundTripWitDoc ∧
    ∃ (w : PyStr) (ws : List String) (q : ℚ),
      write roundTripWitDoc = .ok w ∧
      loads w = (ws, .ok (SHADOZDoc.mk (some q) Option.none (mdTrunc roundTripWitDoc)
        roundTripWitDoc.data_fields roundTripWitDoc.data_fields_units
        roundTripWitDoc.data)) :=
  ⟨roundTripWitDoc_safe, C1_round_trip roundTripWitDoc roundTripWitDoc_safe⟩
